import Mathlib

/-! The command-line front end of simple-compiler.

A shallow embedding of `src/cstate.c` (`cstate_create_from_args`) and the
properties of the argument-to-configuration resolution it implements.

Modelling conventions.

* C strings are `String`; a `char *` that may be `NULL` is an `Option String`.
* `argv` is a `List String`, `argc` a `Nat`; the C runtime calls the function
  with `argc = argv.length`, and the theorems are stated for that call.
  Reading `argv[k]` with `k` outside the list is the outcome `fault`.
* The collaborators that are declared outside `cstate.c` (`stat`,
  `scu_extract_name`, `create_new_fstate`) are the fields of an `Env`; each
  call is recorded in the log of the machine, so that "was (not) consulted"
  is a statement about the log.
* `exit(1)` ends the run with the outcome `exited 1`, carrying the machine as
  it was at that point.
* The block returned by `scu_checked_malloc` is a parameter `s0`: the code
  assigns only some of its fields before reading them.
* Memory allocation (`strdup`, the dynamic array) is assumed to succeed.
-/

namespace SimpleCompiler

/-! ## Data model -/

/-- What `stat` followed by `S_ISDIR` tells about a path: `stat` failed, it
succeeded on something that is not a directory, or it succeeded on a
directory. -/
inductive StatResult where
  | missing
  | not_dir
  | dir
  deriving DecidableEq, Repr

/-- The collaborators of `cstate_create_from_args`, for per-file states of
type `F`. -/
structure Env (F : Type) where
  /-- The filesystem: `stat(path, &st)` and `S_ISDIR(st.st_mode)`. -/
  stat : String → StatResult
  /-- The name-derivation utility; `none` is `NULL`. -/
  scu_extract_name : String → Option String
  /-- The file-state factory; `none` is `NULL`. -/
  create_new_fstate : String → Option F

/-- What the run does to the outside, in order of occurrence. -/
inductive Event where
  /-- A `printf` to standard output. -/
  | printf (text : String)
  /-- A diagnostic: the format string and the arguments given to `scu_perror`. -/
  | diagnostic (fmt : String) (args : List String)
  /-- A call of `stat` on a path. -/
  | stat (path : String)
  /-- A call of `scu_extract_name` on a path. -/
  | extract_name (path : String)
  /-- A call of `create_new_fstate` on a path. -/
  | create_fstate (path : String)
  deriving DecidableEq, Repr

/-- The member `options` of `cstate`. -/
structure cstate_options where
  verbose : Bool
  output : Bool
  include_dir_specified : Bool
  deriving DecidableEq, Repr

/-- The struct `cstate`, with the fields `cstate.c` uses. -/
structure cstate (F : Type) where
  options : cstate_options
  output_filepath : Option String
  include_dir : Option String
  error_count : Int
  files : List F
  deriving DecidableEq, Repr

/-- The state of a run: the struct under construction, the local dynamic
array `filenames`, and the events so far. -/
structure Machine (F : Type) where
  s : cstate F
  filenames : List String
  log : List Event
  deriving DecidableEq, Repr

/-- How a run ends. -/
inductive Outcome (F : Type) where
  /-- The function returned `s`. -/
  | returned (m : Machine F)
  /-- The process ended in `exit(status)`. -/
  | exited (status : Nat) (m : Machine F)
  /-- A read of `argv` outside `0 .. argv.length - 1`. -/
  | fault
  /-- The model ran out of fuel. -/
  | timeout
  deriving DecidableEq, Repr

/-- One pass through the body of the `while` loop: go on at a new cursor, or
end the run. -/
inductive Step (F : Type) where
  | next (i : Nat) (m : Machine F)
  | halt (o : Outcome F)
  deriving DecidableEq, Repr

/-! ## The code -/

/-- Appends an event to the log. -/
def Machine.emit {F : Type} (m : Machine F) (e : Event) : Machine F :=
  { m with log := m.log ++ [e] }

/-- Modelled from the spec: `scu_perror(&s->error_count, fmt, args...)`, the
diagnostic reporter of `utils.h`, which is not among the sources. It
increments the counter it is given and writes the formatted message to the
error stream. -/
def scu_perror {F : Type} (m : Machine F) (fmt : String) (args : List String) :
    Machine F :=
  { m with
    s := { m.s with error_count := m.s.error_count + 1 }
    log := m.log ++ [Event.diagnostic fmt args] }

/-- The six `printf` calls of the `argc <= 1` branch. -/
def usage_lines : List String :=
  [ "Simple Compiler - Just as the name suggests\n",
    "Usage: sclc [OPTIONS] <filename(s)>\n\n",
    "OPTIONS:\n",
    "--verbose      OR -v \t Print progress messages for various stages.\n",
    "--output       OR -o \t Specify output binary filename.\n",
    "--include_dir  OR -i \t Specify include directory path.\n" ]

/-- The test `arg[0] != '-'` (the first byte of an empty string is the
terminator, which is not a dash). -/
def not_dash_first (arg : String) : Bool :=
  match arg.data with
  | [] => true
  | c :: _ => c != '-'

/-- The body of `while (i < argc)`, lines 38 to 104. -/
def scan_step {F : Type} (env : Env F) (argc : Nat) (argv : List String) (i : Nat)
    (m : Machine F) : Step F :=
  match argv[i]? with
  | none => .halt .fault
  | some arg =>
    if arg = "--verbose" ∨ arg = "-v" then
      .next (i + 1)
        { m with s := { m.s with options := { m.s.options with verbose := true } } }
    else if arg = "--output" ∨ arg = "-o" then
      if i + 1 ≥ argc then
        .halt (.exited 1 (scu_perror m "Missing filename after %s\n" [arg]))
      else
        match argv[i + 1]? with
        | none => .halt .fault
        | some value =>
          if m.s.output_filepath ≠ none then
            .halt (.exited 1
              (scu_perror m "Output specified more than once: %s\n" [value]))
          else
            .next (i + 2)
              { m with s := { m.s with
                  output_filepath := some value
                  options := { m.s.options with output := true } } }
    else if arg = "--include_dir" ∨ arg = "-i" then
      if i + 1 ≥ argc then
        .halt (.exited 1 (scu_perror m "Missing directory path after %s\n" [arg]))
      else
        match argv[i + 1]? with
        | none => .halt .fault
        | some value =>
          if m.s.include_dir ≠ none then
            .halt (.exited 1
              (scu_perror m "Include directory specified more than once: %s\n" [value]))
          else
            let m1 := m.emit (Event.stat value)
            match env.stat value with
            | .missing =>
              .halt (.exited 1
                (scu_perror m1 "Include directory does not exist: %s\n" [value]))
            | .not_dir =>
              .halt (.exited 1 (scu_perror m1 "Path is not a directory: %s\n" [value]))
            | .dir =>
              .next (i + 2)
                { m1 with s := { m1.s with
                    include_dir := some value
                    options := { m1.s.options with include_dir_specified := true } } }
    else if not_dash_first arg then
      .next (i + 1) { m with filenames := m.filenames ++ [arg] }
    else
      .halt (.exited 1 (scu_perror m "Unknown option: %s\n" [arg]))

/-- The loop `while (i < argc)` of line 37: `inl` is the state at the loop's
exit, `inr` the outcome of a run that ended inside the loop. -/
def scan_loop {F : Type} (env : Env F) (argc : Nat) (argv : List String) :
    Nat → Nat → Machine F → (Nat × Machine F) ⊕ Outcome F
  | fuel, i, m =>
    if i < argc then
      match fuel with
      | 0 => .inr .timeout
      | fuel + 1 =>
        match scan_step env argc argv i m with
        | .next j m1 => scan_loop env argc argv fuel j m1
        | .halt o => .inr o
    else .inl (i, m)

/-- The loop `for (size_t i = 0; i < filenames.count; i++)` of lines 127 to
140, over the filenames not yet visited, and the `return s` after it. -/
def create_files {F : Type} (env : Env F) : List String → Machine F → Outcome F
  | [], m => .returned { m with filenames := [] }
  | filepath :: rest, m =>
    let m1 := m.emit (Event.create_fstate filepath)
    match env.create_new_fstate filepath with
    | none => .exited 1 (scu_perror m1 "Failed to create fstate for: %s\n" [filepath])
    | some fst => create_files env rest { m1 with s := { m1.s with files := m1.s.files ++ [fst] } }

/-- Lines 107 and 108: `if (s->include_dir == NULL) s->include_dir = strdup(".")`. -/
def default_include_dir {F : Type} (m : Machine F) : Machine F :=
  if m.s.include_dir = none then { m with s := { m.s with include_dir := some "." } }
  else m

/-- Lines 115 to 123: the output name, when none was given, is taken from the
first filename. `inr` is the outcome of a run that ended here. -/
def resolve_output {F : Type} (env : Env F) (first_filename : String) (m : Machine F) :
    Machine F ⊕ Outcome F :=
  if m.s.output_filepath = none then
    let m1 := m.emit (Event.extract_name first_filename)
    match env.scu_extract_name first_filename with
    | none => .inr (.exited 1 (scu_perror m1 "Failed to extract filename.\n" []))
    | some name => .inl { m1 with s := { m1.s with output_filepath := some name } }
  else .inl m

/-- Lines 107 to 144: what follows the scan. -/
def after_scan {F : Type} (env : Env F) (m : Machine F) : Outcome F :=
  let m1 := default_include_dir m
  match m1.filenames with
  | [] => .exited 1 (scu_perror m1 "Missing input filename\n" [])
  | first_filename :: _ =>
    match resolve_output env first_filename m1 with
    | .inr o => o
    | .inl m2 => create_files env m2.filenames { m2 with s := { m2.s with files := [] } }

/-- The function `cstate_create_from_args(argc, argv)`; `s0` is the block that
`scu_checked_malloc` returned. The loop gets `argc` units of fuel. -/
def cstate_create_from_args {F : Type} (env : Env F) (s0 : cstate F) (argc : Nat)
    (argv : List String) : Outcome F :=
  let m0 : Machine F := { s := s0, filenames := [], log := [] }
  if argc ≤ 1 then
    .exited 1 { m0 with log := usage_lines.map Event.printf }
  else
    let m1 : Machine F :=
      { m0 with s := { s0 with output_filepath := none, include_dir := none, error_count := 0 } }
    match scan_loop env argc argv argc 1 m1 with
    | .inr o => o
    | .inl (_, m) => after_scan env m

/-! ## Sample environment -/

/-- A sample world: `inc` is a directory, `notes.txt` a regular file, nothing
else exists; names are derived by cutting at the first dot; every file but
`bad.sc` yields a state, which is its own path. -/
def sampleEnv : Env String where
  stat := fun p => if p = "inc" then .dir else if p = "notes.txt" then .not_dir else .missing
  scu_extract_name := fun p => if p = "" then none else some (String.mk (p.data.takeWhile (· != '.')))
  create_new_fstate := fun p => if p = "bad.sc" then none else some p

/-- A sample block with every flag cleared. -/
def zeroState : cstate String :=
  { options := { verbose := false, output := false, include_dir_specified := false }
    output_filepath := none, include_dir := none, error_count := 0, files := [] }

/-- A sample block whose `verbose` byte is set. -/
def dirtyState : cstate String :=
  { zeroState with options := { verbose := true, output := true, include_dir_specified := true }
                   error_count := 7 }

/-- A sample world in which the directory `inc` and a directory named `-v`
exist, names are derived by cutting at the first dot and every file yields a
state, which is its own path. -/
def dashEnv : Env String where
  stat := fun p => if p = "inc" ∨ p = "-v" then .dir else .missing
  scu_extract_name := fun p => if p = "" then none else some (String.mk (p.data.takeWhile (· != '.')))
  create_new_fstate := fun p => some p

/-! ## The vocabulary of the specification -/

/-- The token is `--verbose` or `-v`. -/
def is_verbose_flag (t : String) : Prop := t = "--verbose" ∨ t = "-v"

/-- The token is `--output` or `-o`. -/
def is_output_flag (t : String) : Prop := t = "--output" ∨ t = "-o"

/-- The token is `--include_dir` or `-i`. -/
def is_include_flag (t : String) : Prop := t = "--include_dir" ∨ t = "-i"

instance (t : String) : Decidable (is_verbose_flag t) := by
  unfold is_verbose_flag; infer_instance

instance (t : String) : Decidable (is_output_flag t) := by
  unfold is_output_flag; infer_instance

instance (t : String) : Decidable (is_include_flag t) := by
  unfold is_include_flag; infer_instance

/-- The token begins with a dash. -/
def begins_with_dash (t : String) : Bool := t.data.head? == some '-'

/-- The command line as the specification reads it: the tokens that stand in
flag position, each value-taking flag together with the token after it. -/
inductive Tok where
  /-- `--verbose` or `-v`. -/
  | verbose (flag : String)
  /-- `--output` or `-o`, and its value. -/
  | output (flag value : String)
  /-- `--include_dir` or `-i`, and its value. -/
  | include_dir (flag value : String)
  /-- A token that does not begin with a dash. -/
  | positional (name : String)
  /-- A value-taking flag that is the last token, its value missing. -/
  | dangling (flag : String)
  /-- A token that begins with a dash and is none of the six flags. -/
  | unknown (token : String)
  deriving DecidableEq, Repr

/-- Reads the arguments after the program name from left to right. -/
def tokens : List String → List Tok
  | [] => []
  | [t] =>
    if is_verbose_flag t then [.verbose t]
    else if is_output_flag t ∨ is_include_flag t then [.dangling t]
    else if begins_with_dash t then [.unknown t]
    else [.positional t]
  | t :: v :: rest =>
    if is_verbose_flag t then .verbose t :: tokens (v :: rest)
    else if is_output_flag t then .output t v :: tokens rest
    else if is_include_flag t then .include_dir t v :: tokens rest
    else if begins_with_dash t then .unknown t :: tokens (v :: rest)
    else .positional t :: tokens (v :: rest)

/-- The name of a positional token. -/
def Tok.positional? : Tok → Option String
  | .positional name => some name
  | _ => none

/-- The value of an output flag. -/
def Tok.output? : Tok → Option String
  | .output _ value => some value
  | _ => none

/-- The value of an include-directory flag. -/
def Tok.include_dir? : Tok → Option String
  | .include_dir _ value => some value
  | _ => none

/-- The positional tokens of the arguments, in command-line order. -/
def positional_tokens (args : List String) : List String :=
  (tokens args).filterMap Tok.positional?

/-- The values given to `-o` / `--output` in flag position, in order. -/
def output_values (toks : List Tok) : List String := toks.filterMap Tok.output?

/-- The values given to `-i` / `--include_dir` in flag position, in order. -/
def include_values (toks : List Tok) : List String := toks.filterMap Tok.include_dir?

/-- A token that is acceptable by itself: not a flag without its value, not
an unknown option, and an include directory only if the filesystem knows it
as a directory. -/
def Tok.well_formed {F : Type} (env : Env F) : Tok → Bool
  | .dangling _ => false
  | .unknown _ => false
  | .include_dir _ value => env.stat value == .dir
  | _ => true

/-- The tokens are all valid: each is acceptable by itself, and neither the
output nor the include directory is given more than once. -/
def all_valid {F : Type} (env : Env F) (toks : List Tok) : Bool :=
  toks.all (Tok.well_formed env) && decide ((output_values toks).length ≤ 1) &&
    decide ((include_values toks).length ≤ 1)

/-- The diagnostics among the events, in order. -/
def diagnostics : List Event → List Event
  | [] => []
  | .diagnostic fmt args :: rest => .diagnostic fmt args :: diagnostics rest
  | _ :: rest => diagnostics rest

/-- The paths on which `stat` was called, in order. -/
def stat_calls : List Event → List String
  | [] => []
  | .stat path :: rest => path :: stat_calls rest
  | _ :: rest => stat_calls rest

/-- The paths on which `scu_extract_name` was called, in order. -/
def extract_calls : List Event → List String
  | [] => []
  | .extract_name path :: rest => path :: extract_calls rest
  | _ :: rest => extract_calls rest

/-- The paths on which `create_new_fstate` was called, in order. -/
def create_calls : List Event → List String
  | [] => []
  | .create_fstate path :: rest => path :: create_calls rest
  | _ :: rest => create_calls rest

/-- Resolution fails with a diagnostic: the process exits with status 1 and
the one diagnostic it reported is `fmt` with the arguments `args`. -/
def FailsWith {F : Type} (o : Outcome F) (fmt : String) (args : List String) : Prop :=
  match o with
  | .exited status m => status = 1 ∧ diagnostics m.log = [Event.diagnostic fmt args]
  | _ => False

instance {F : Type} (o : Outcome F) (fmt : String) (args : List String) :
    Decidable (FailsWith o fmt args) := by
  unfold FailsWith
  cases o <;> infer_instance

/-! ## The scan, token by token -/

/-- What the loop body does with one token of the specification. -/
def apply_tok {F : Type} (env : Env F) (m : Machine F) : Tok → Machine F ⊕ Outcome F
  | .verbose _ =>
    .inl { m with s := { m.s with options := { m.s.options with verbose := true } } }
  | .output _ value =>
    if m.s.output_filepath ≠ none then
      .inr (.exited 1 (scu_perror m "Output specified more than once: %s\n" [value]))
    else
      .inl { m with s := { m.s with
                output_filepath := some value
                options := { m.s.options with output := true } } }
  | .include_dir _ value =>
    if m.s.include_dir ≠ none then
      .inr (.exited 1
        (scu_perror m "Include directory specified more than once: %s\n" [value]))
    else
      match env.stat value with
      | .missing =>
        .inr (.exited 1 (scu_perror (m.emit (Event.stat value))
          "Include directory does not exist: %s\n" [value]))
      | .not_dir =>
        .inr (.exited 1 (scu_perror (m.emit (Event.stat value))
          "Path is not a directory: %s\n" [value]))
      | .dir =>
        .inl { m with
          s := { m.s with
            include_dir := some value
            options := { m.s.options with include_dir_specified := true } }
          log := m.log ++ [Event.stat value] }
  | .positional name => .inl { m with filenames := m.filenames ++ [name] }
  | .dangling flag =>
    if is_output_flag flag then
      .inr (.exited 1 (scu_perror m "Missing filename after %s\n" [flag]))
    else
      .inr (.exited 1 (scu_perror m "Missing directory path after %s\n" [flag]))
  | .unknown token => .inr (.exited 1 (scu_perror m "Unknown option: %s\n" [token]))

/-- The loop over a list of tokens. -/
def run_tokens {F : Type} (env : Env F) : List Tok → Machine F → Machine F ⊕ Outcome F
  | [], m => .inl m
  | t :: ts, m =>
    match apply_tok env m t with
    | .inl m1 => run_tokens env ts m1
    | .inr o => .inr o

/-- The token is a verbose flag. -/
def Tok.is_verbose : Tok → Bool
  | .verbose _ => true
  | _ => false

/-- The machine with which the scan starts (lines 30 to 35): the three
assignments to the block `s0`, and an empty `filenames`. -/
def start_machine {F : Type} (s0 : cstate F) : Machine F :=
  { s := { s0 with output_filepath := none, include_dir := none, error_count := 0 }
    filenames := []
    log := [] }

/-- The machine of an outcome, where it has one. -/
def Outcome.machine? {F : Type} : Outcome F → Option (Machine F)
  | .returned m => some m
  | .exited _ m => some m
  | .fault => none
  | .timeout => none

/-- The format strings of the diagnostics that the scan loop reports. -/
def scan_formats : List String :=
  [ "Missing filename after %s\n",
    "Output specified more than once: %s\n",
    "Missing directory path after %s\n",
    "Include directory specified more than once: %s\n",
    "Include directory does not exist: %s\n",
    "Path is not a directory: %s\n",
    "Unknown option: %s\n" ]

/-! ## The assembler invocation (`src/fasm_utils.c`) -/

/-- The bytes of a C string: the UTF-8 encoding of its text. -/
def c_bytes (s : String) : List UInt8 := s.data.flatMap String.utf8EncodeChar

/-- What `snprintf(buf, size, ...)` leaves in `buf` before the terminator,
when the formatted text is `text`: its first `size - 1` bytes. -/
def snprintf_bytes (size : Nat) (text : List UInt8) : List UInt8 := text.take (size - 1)

/-- The format `"fasm %s %s.o > /dev/null"` with its two arguments. -/
def fasm_format (asm_file output_file : String) : String :=
  "fasm " ++ asm_file ++ " " ++ output_file ++ ".o > /dev/null"

/-- A run of `fasm_assemble`: the command given to `system`, the status of
`exit` when the process was ended, and the diagnostics. -/
structure FasmRun where
  command : List UInt8
  exit_status : Option Nat
  log : List Event
  deriving DecidableEq

/-- The function `fasm_assemble(output_file, asm_file)`; `system` is the
library function, from the command to its result. The diagnostic goes to
`scu_perror` with no counter. -/
def fasm_assemble (system : List UInt8 → Int) (output_file asm_file : String) : FasmRun :=
  let command := snprintf_bytes 512 (c_bytes (fasm_format asm_file output_file))
  let result := system command
  if result ≠ 0 then
    { command := command, exit_status := some 1
      log := [Event.diagnostic "Assembly failed with code %d\n" [toString result]] }
  else
    { command := command, exit_status := none, log := [] }

/-! ## The loop reads the command line as the specification does -/

/-- The continuation of a loop step, from the effect of one token. -/
def step_of {F : Type} (j : Nat) : Machine F ⊕ Outcome F → Step F
  | .inl m => .next j m
  | .inr o => .halt o

theorem not_dash_first_eq (t : String) : not_dash_first t = !begins_with_dash t := by
  unfold not_dash_first begins_with_dash
  cases h : t.data with
  | nil => simp
  | cons c cs =>
    by_cases hc : c = '-' <;> simp [hc, bne]

/-- One pass through the loop body consumes one token of the specification,
which takes one or two slots of the argument vector. -/
theorem scan_step_spec {F : Type} (env : Env F) (argv : List String) (i : Nat)
    (m : Machine F) (hi : i < argv.length) :
    ∃ t j, tokens (argv.drop i) = t :: tokens (argv.drop j) ∧ (j = i + 1 ∨ j = i + 2) ∧
      j ≤ argv.length ∧
      scan_step env argv.length argv i m = step_of j (apply_tok env m t) := by
  have hd : argv.drop i = argv[i] :: argv.drop (i + 1) := List.drop_eq_getElem_cons hi
  have hget : argv[i]? = some argv[i] := List.getElem?_eq_getElem hi
  generalize argv[i] = a at hd hget
  rcases Nat.lt_or_ge (i + 1) argv.length with h1 | h1
  · have hd1 : argv.drop (i + 1) = argv[i + 1] :: argv.drop (i + 2) :=
      List.drop_eq_getElem_cons h1
    have hget1 : argv[i + 1]? = some argv[i + 1] := List.getElem?_eq_getElem h1
    generalize argv[i + 1] = v at hd1 hget1
    have hn : ¬ (i + 1 ≥ argv.length) := by omega
    by_cases hv : is_verbose_flag a
    · refine ⟨.verbose a, i + 1, ?_, Or.inl rfl, by omega, ?_⟩
      · rw [hd, hd1, tokens, if_pos hv]
      · have hv1 := hv
        unfold is_verbose_flag at hv1
        simp only [scan_step, hget, if_pos hv1, apply_tok, step_of]
    by_cases ho : is_output_flag a
    · refine ⟨.output a v, i + 2, ?_, Or.inr rfl, by omega, ?_⟩
      · rw [hd, hd1, tokens, if_neg hv, if_pos ho]
      · have hv1 := hv
        have ho1 := ho
        unfold is_verbose_flag at hv1
        unfold is_output_flag at ho1
        simp only [scan_step, hget, hget1, if_neg hv1, if_pos ho1, if_neg hn, apply_tok]
        split <;> rfl
    by_cases hc : is_include_flag a
    · refine ⟨.include_dir a v, i + 2, ?_, Or.inr rfl, by omega, ?_⟩
      · rw [hd, hd1, tokens, if_neg hv, if_neg ho, if_pos hc]
      · have hv1 := hv
        have ho1 := ho
        have hc1 := hc
        unfold is_verbose_flag at hv1
        unfold is_output_flag at ho1
        unfold is_include_flag at hc1
        simp only [scan_step, hget, hget1, if_neg hv1, if_neg ho1, if_pos hc1, if_neg hn,
          apply_tok]
        split
        · rfl
        · cases env.stat v <;> rfl
    have hv1 := hv
    have ho1 := ho
    have hc1 := hc
    unfold is_verbose_flag at hv1
    unfold is_output_flag at ho1
    unfold is_include_flag at hc1
    by_cases hb : begins_with_dash a = true
    · refine ⟨.unknown a, i + 1, ?_, Or.inl rfl, by omega, ?_⟩
      · rw [hd, hd1, tokens, if_neg hv, if_neg ho, if_neg hc, if_pos hb]
      · simp only [scan_step, hget, if_neg hv1, if_neg ho1, if_neg hc1, not_dash_first_eq, hb,
          apply_tok, step_of]
        rfl
    · refine ⟨.positional a, i + 1, ?_, Or.inl rfl, by omega, ?_⟩
      · rw [hd, hd1, tokens, if_neg hv, if_neg ho, if_neg hc, if_neg hb]
      · simp only [Bool.not_eq_true] at hb
        simp only [scan_step, hget, if_neg hv1, if_neg ho1, if_neg hc1, not_dash_first_eq, hb,
          apply_tok, step_of]
        rfl
  · have hd1 : argv.drop (i + 1) = [] := List.drop_eq_nil_of_le h1
    by_cases hv : is_verbose_flag a
    · refine ⟨.verbose a, i + 1, ?_, Or.inl rfl, by omega, ?_⟩
      · rw [hd, hd1]; simp only [tokens, if_pos hv]
      · have hv1 := hv
        unfold is_verbose_flag at hv1
        simp only [scan_step, hget, if_pos hv1, apply_tok, step_of]
    have hv1 := hv
    unfold is_verbose_flag at hv1
    by_cases ho : is_output_flag a
    · refine ⟨.dangling a, i + 1, ?_, Or.inl rfl, by omega, ?_⟩
      · rw [hd, hd1]; simp only [tokens, if_neg hv, if_pos (Or.inl ho)]
      · have ho1 := ho
        unfold is_output_flag at ho1
        simp only [scan_step, hget, if_neg hv1, if_pos ho1, if_pos h1, apply_tok, if_pos ho,
          step_of]
    have ho1 := ho
    unfold is_output_flag at ho1
    by_cases hc : is_include_flag a
    · refine ⟨.dangling a, i + 1, ?_, Or.inl rfl, by omega, ?_⟩
      · rw [hd, hd1]; simp only [tokens, if_neg hv, if_pos (Or.inr hc)]
      · have hc1 := hc
        unfold is_include_flag at hc1
        simp only [scan_step, hget, if_neg hv1, if_neg ho1, if_pos hc1, if_pos h1, apply_tok,
          if_neg ho, step_of]
    have hc1 := hc
    unfold is_include_flag at hc1
    have hoc : ¬ (is_output_flag a ∨ is_include_flag a) := by
      rintro (h | h)
      · exact ho h
      · exact hc h
    by_cases hb : begins_with_dash a = true
    · refine ⟨.unknown a, i + 1, ?_, Or.inl rfl, by omega, ?_⟩
      · rw [hd, hd1]; simp only [tokens, if_neg hv, if_neg hoc, if_pos hb]
      · simp only [scan_step, hget, if_neg hv1, if_neg ho1, if_neg hc1, not_dash_first_eq, hb,
          apply_tok, step_of]
        rfl
    · refine ⟨.positional a, i + 1, ?_, Or.inl rfl, by omega, ?_⟩
      · rw [hd, hd1]; simp only [tokens, if_neg hv, if_neg hoc, if_neg hb]
      · simp only [Bool.not_eq_true] at hb
        simp only [scan_step, hget, if_neg hv1, if_neg ho1, if_neg hc1, not_dash_first_eq, hb,
          apply_tok, step_of]
        rfl

/-- The loop, started at cursor `i` with enough fuel, does what the tokens
from slot `i` on say, and ends with the cursor on `argc`. -/
theorem scan_loop_eq {F : Type} (env : Env F) (argv : List String) :
    ∀ (fuel i : Nat) (m : Machine F), i ≤ argv.length → argv.length - i ≤ fuel →
      scan_loop env argv.length argv fuel i m =
        Sum.map (fun m1 => (argv.length, m1)) id
          (run_tokens env (tokens (argv.drop i)) m) := by
  intro fuel
  induction fuel with
  | zero =>
    intro i m hi hf
    have hie : i = argv.length := by omega
    subst hie
    rw [scan_loop, if_neg (Nat.lt_irrefl _), List.drop_length, tokens, run_tokens]
    rfl
  | succ k ih =>
    intro i m hi hf
    rcases Nat.lt_or_ge i argv.length with hlt | hge
    · obtain ⟨t, j, ht, hj, hjle, hstep⟩ := scan_step_spec env argv i m hlt
      rw [scan_loop, if_pos hlt, hstep, ht, run_tokens]
      cases hap : apply_tok env m t with
      | inl m1 =>
        simp only [step_of]
        exact ih j m1 hjle (by omega)
      | inr o => simp only [step_of]; rfl
    · have hie : i = argv.length := by omega
      subst hie
      rw [scan_loop, if_neg (Nat.lt_irrefl _), List.drop_length, tokens, run_tokens]
      rfl

/-- With at least one argument after the program name, the function is the
scan of the tokens followed by the code after the loop. -/
theorem create_from_args_eq {F : Type} (env : Env F) (s0 : cstate F) (prog a : String)
    (rest : List String) :
    cstate_create_from_args env s0 (prog :: a :: rest).length (prog :: a :: rest) =
      match run_tokens env (tokens (a :: rest)) (start_machine s0) with
      | .inl m => after_scan env m
      | .inr o => o := by
  have hlen : ¬ ((prog :: a :: rest).length ≤ 1) := by simp
  have h := scan_loop_eq env (prog :: a :: rest) (prog :: a :: rest).length 1
    (start_machine s0) (by simp) (by omega)
  rw [List.drop_one, List.tail_cons] at h
  unfold cstate_create_from_args
  simp only [if_neg hlen]
  unfold start_machine at h
  rw [h]
  unfold start_machine
  generalize run_tokens env (tokens (a :: rest)) _ = r
  cases r <;> rfl

/-! ## What the scan leaves behind -/

theorem output_values_cons (t : Tok) (ts : List Tok) :
    output_values (t :: ts) = t.output?.toList ++ output_values ts := by
  cases t <;> simp [output_values, Tok.output?]

theorem include_values_cons (t : Tok) (ts : List Tok) :
    include_values (t :: ts) = t.include_dir?.toList ++ include_values ts := by
  cases t <;> simp [include_values, Tok.include_dir?]

/-- A scan that gets through its tokens: what it found them to be, and the
machine it ends with. -/
theorem run_tokens_inl {F : Type} (env : Env F) (toks : List Tok) :
    ∀ (m m1 : Machine F), run_tokens env toks m = .inl m1 →
      toks.all (Tok.well_formed env) = true ∧
      (m.s.output_filepath.toList ++ output_values toks).length ≤ 1 ∧
      m1.s.output_filepath = (m.s.output_filepath.toList ++ output_values toks).head? ∧
      (m.s.include_dir.toList ++ include_values toks).length ≤ 1 ∧
      m1.s.include_dir = (m.s.include_dir.toList ++ include_values toks).head? ∧
      m1.s.options.verbose = (m.s.options.verbose || toks.any Tok.is_verbose) ∧
      m1.s.options.output = (m.s.options.output || !(output_values toks).isEmpty) ∧
      m1.s.options.include_dir_specified =
        (m.s.options.include_dir_specified || !(include_values toks).isEmpty) ∧
      m1.s.error_count = m.s.error_count ∧
      m1.s.files = m.s.files ∧
      m1.filenames = m.filenames ++ toks.filterMap Tok.positional? ∧
      m1.log = m.log ++ (include_values toks).map Event.stat := by
  induction toks with
  | nil =>
    intro m m1 h
    simp only [run_tokens, Sum.inl.injEq] at h
    subst h
    cases ho : m.s.output_filepath <;> cases hi : m.s.include_dir <;>
      simp [output_values, include_values]
  | cons t ts ih =>
    intro m m1 h
    rw [run_tokens] at h
    cases hap : apply_tok env m t with
    | inr o => rw [hap] at h; cases h
    | inl m2 =>
      rw [hap] at h
      have ih2 := ih m2 m1 h
      rw [output_values_cons, include_values_cons]
      cases t with
      | verbose f =>
        simp only [apply_tok, Sum.inl.injEq] at hap
        subst hap
        simpa [Tok.well_formed, Tok.output?, Tok.include_dir?, Tok.is_verbose,
          Tok.positional?] using ih2
      | output f v =>
        simp only [apply_tok] at hap
        split at hap
        · cases hap
        · rename_i hnone
          simp only [ne_eq, not_not] at hnone
          simp only [Sum.inl.injEq] at hap
          subst hap
          simpa [Tok.well_formed, Tok.output?, Tok.include_dir?, Tok.is_verbose,
            Tok.positional?, hnone] using ih2
      | include_dir f v =>
        simp only [apply_tok] at hap
        split at hap
        · cases hap
        · rename_i hnone
          simp only [ne_eq, not_not] at hnone
          cases hst : env.stat v with
          | missing => rw [hst] at hap; cases hap
          | not_dir => rw [hst] at hap; cases hap
          | dir =>
            rw [hst] at hap
            simp only [Sum.inl.injEq] at hap
            subst hap
            simpa [Tok.well_formed, Tok.output?, Tok.include_dir?, Tok.is_verbose,
              Tok.positional?, hnone, hst] using ih2
      | positional n =>
        simp only [apply_tok, Sum.inl.injEq] at hap
        subst hap
        simpa [Tok.well_formed, Tok.output?, Tok.include_dir?, Tok.is_verbose,
          Tok.positional?] using ih2
      | dangling f =>
        simp only [apply_tok] at hap
        split at hap <;> cases hap
      | unknown u =>
        simp only [apply_tok] at hap
        cases hap

/-- A scan of tokens that are all acceptable, with no output and no include
directory given twice, gets through. -/
theorem run_tokens_ok {F : Type} (env : Env F) (toks : List Tok) :
    ∀ (m : Machine F), toks.all (Tok.well_formed env) = true →
      (m.s.output_filepath.toList ++ output_values toks).length ≤ 1 →
      (m.s.include_dir.toList ++ include_values toks).length ≤ 1 →
      ∃ m1, run_tokens env toks m = .inl m1 := by
  induction toks with
  | nil => intro m _ _ _; exact ⟨m, rfl⟩
  | cons t ts ih =>
    intro m hwf ho hi
    rw [List.all_cons, Bool.and_eq_true] at hwf
    rw [output_values_cons] at ho
    rw [include_values_cons] at hi
    rw [run_tokens]
    cases t with
    | verbose f =>
      simp only [apply_tok]
      exact ih _ hwf.2 (by simpa [Tok.output?] using ho) (by simpa [Tok.include_dir?] using hi)
    | output f v =>
      have hnone : m.s.output_filepath = none := by
        cases h : m.s.output_filepath with
        | none => rfl
        | some x => rw [h] at ho; simp [Tok.output?] at ho
      simp only [apply_tok, hnone, ne_eq, not_true_eq_false, if_false]
      refine ih _ hwf.2 ?_ (by simpa [Tok.include_dir?] using hi)
      rw [hnone] at ho
      simpa [Tok.output?] using ho
    | include_dir f v =>
      have hnone : m.s.include_dir = none := by
        cases h : m.s.include_dir with
        | none => rfl
        | some x => rw [h] at hi; simp [Tok.include_dir?] at hi
      have hst : env.stat v = .dir := by simpa [Tok.well_formed] using hwf.1
      simp only [apply_tok, hnone, ne_eq, not_true_eq_false, if_false, hst]
      refine ih _ hwf.2 (by simpa [Tok.output?] using ho) ?_
      rw [hnone] at hi
      simpa [Tok.include_dir?] using hi
    | positional n =>
      simp only [apply_tok]
      exact ih _ hwf.2 (by simpa [Tok.output?] using ho) (by simpa [Tok.include_dir?] using hi)
    | dangling f => simp [Tok.well_formed] at hwf
    | unknown u => simp [Tok.well_formed] at hwf

/-- The scan of a list of tokens in two parts. -/
theorem run_tokens_append {F : Type} (env : Env F) (pre post : List Tok) :
    ∀ (m : Machine F), run_tokens env (pre ++ post) m =
      match run_tokens env pre m with
      | .inl m1 => run_tokens env post m1
      | .inr o => .inr o := by
  induction pre with
  | nil => intro m; rfl
  | cons t ts ih =>
    intro m
    rw [List.cons_append, run_tokens, run_tokens]
    cases apply_tok env m t with
    | inl m1 => exact ih m1
    | inr o => rfl

/-- A scan that does not get through ends the process. -/
theorem run_tokens_inr {F : Type} (env : Env F) (toks : List Tok) :
    ∀ (m : Machine F) (o : Outcome F), run_tokens env toks m = .inr o →
      ∃ m1, o = .exited 1 m1 := by
  induction toks with
  | nil => intro m o h; cases h
  | cons t ts ih =>
    intro m o h
    rw [run_tokens] at h
    cases hap : apply_tok env m t with
    | inl m2 => rw [hap] at h; exact ih m2 o h
    | inr o2 =>
      rw [hap] at h
      simp only [Sum.inr.injEq] at h
      subst h
      cases t with
      | verbose f => simp [apply_tok] at hap
      | output f v =>
        simp only [apply_tok] at hap
        split at hap
        · simp only [Sum.inr.injEq] at hap; exact ⟨_, hap.symm⟩
        · cases hap
      | include_dir f v =>
        simp only [apply_tok] at hap
        split at hap
        · simp only [Sum.inr.injEq] at hap; exact ⟨_, hap.symm⟩
        · cases hst : env.stat v with
          | missing =>
            rw [hst] at hap; simp only [Sum.inr.injEq] at hap; exact ⟨_, hap.symm⟩
          | not_dir =>
            rw [hst] at hap; simp only [Sum.inr.injEq] at hap; exact ⟨_, hap.symm⟩
          | dir => rw [hst] at hap; cases hap
      | positional n => simp [apply_tok] at hap
      | dangling f =>
        simp only [apply_tok] at hap
        split at hap <;> (simp only [Sum.inr.injEq] at hap; exact ⟨_, hap.symm⟩)
      | unknown u =>
        simp only [apply_tok, Sum.inr.injEq] at hap
        exact ⟨_, hap.symm⟩

/-! ## The events of a log, by kind -/

theorem diagnostics_append (l1 l2 : List Event) :
    diagnostics (l1 ++ l2) = diagnostics l1 ++ diagnostics l2 := by
  induction l1 with
  | nil => rfl
  | cons e es ih => cases e <;> simp [diagnostics, ih]

theorem stat_calls_append (l1 l2 : List Event) :
    stat_calls (l1 ++ l2) = stat_calls l1 ++ stat_calls l2 := by
  induction l1 with
  | nil => rfl
  | cons e es ih => cases e <;> simp [stat_calls, ih]

theorem extract_calls_append (l1 l2 : List Event) :
    extract_calls (l1 ++ l2) = extract_calls l1 ++ extract_calls l2 := by
  induction l1 with
  | nil => rfl
  | cons e es ih => cases e <;> simp [extract_calls, ih]

theorem create_calls_append (l1 l2 : List Event) :
    create_calls (l1 ++ l2) = create_calls l1 ++ create_calls l2 := by
  induction l1 with
  | nil => rfl
  | cons e es ih => cases e <;> simp [create_calls, ih]

theorem calls_map_stat (ps : List String) :
    diagnostics (ps.map Event.stat) = [] ∧ stat_calls (ps.map Event.stat) = ps ∧
      extract_calls (ps.map Event.stat) = [] ∧ create_calls (ps.map Event.stat) = [] := by
  induction ps with
  | nil => exact ⟨rfl, rfl, rfl, rfl⟩
  | cons p ps ih =>
    simp [diagnostics, stat_calls, extract_calls, create_calls, ih.1, ih.2.1, ih.2.2.1, ih.2.2.2]

theorem calls_map_create (ps : List String) :
    diagnostics (ps.map Event.create_fstate) = [] ∧
      stat_calls (ps.map Event.create_fstate) = [] ∧
      extract_calls (ps.map Event.create_fstate) = [] ∧
      create_calls (ps.map Event.create_fstate) = ps := by
  induction ps with
  | nil => exact ⟨rfl, rfl, rfl, rfl⟩
  | cons p ps ih =>
    simp [diagnostics, stat_calls, extract_calls, create_calls, ih.1, ih.2.1, ih.2.2.1, ih.2.2.2]

/-! ## The code after the scan -/

/-- The loop over the filenames, when it returns: one state per filename, in
order, and one call of the factory for each. -/
theorem create_files_returned {F : Type} (env : Env F) (names : List String) :
    ∀ (m m1 : Machine F), create_files env names m = .returned m1 →
      m1.s.files.map some = m.s.files.map some ++ names.map env.create_new_fstate ∧
      m1.log = m.log ++ names.map Event.create_fstate ∧
      m1.s.output_filepath = m.s.output_filepath ∧
      m1.s.include_dir = m.s.include_dir ∧
      m1.s.options = m.s.options ∧
      m1.s.error_count = m.s.error_count ∧
      m1.filenames = [] := by
  induction names with
  | nil =>
    intro m m1 h
    simp only [create_files, Outcome.returned.injEq] at h
    subst h
    simp
  | cons n ns ih =>
    intro m m1 h
    rw [create_files] at h
    cases hc : env.create_new_fstate n with
    | none => simp only [hc] at h; cases h
    | some fst =>
      simp only [hc] at h
      have ih2 := ih _ m1 h
      simpa [Machine.emit, hc] using ih2

/-- The loop over the filenames returns when the factory yields a state for
each of them. -/
theorem create_files_ok {F : Type} (env : Env F) (names : List String) :
    ∀ (m : Machine F), (∀ n ∈ names, env.create_new_fstate n ≠ none) →
      ∃ m1, create_files env names m = .returned m1 := by
  induction names with
  | nil => intro m _; exact ⟨_, rfl⟩
  | cons n ns ih =>
    intro m h
    rw [create_files]
    cases hc : env.create_new_fstate n with
    | none => exact absurd hc (h n (List.mem_cons_self n ns))
    | some fst =>
      simp only
      exact ih _ (fun k hk => h k (List.mem_cons_of_mem n hk))

/-- The code after the scan, when it returns. -/
theorem after_scan_returned {F : Type} (env : Env F) (m m1 : Machine F)
    (h : after_scan env m = .returned m1) :
    ∃ first rest, m.filenames = first :: rest ∧
      m1.s.files.map some = m.filenames.map env.create_new_fstate ∧
      m1.s.include_dir = some (m.s.include_dir.getD ".") ∧
      m1.s.output_filepath =
        (if m.s.output_filepath = none then env.scu_extract_name first
         else m.s.output_filepath) ∧
      m1.s.output_filepath ≠ none ∧
      m1.s.options = m.s.options ∧
      m1.s.error_count = m.s.error_count ∧
      m1.log = m.log ++ (if m.s.output_filepath = none then [Event.extract_name first] else [])
        ++ m.filenames.map Event.create_fstate := by
  obtain ⟨⟨opts, out, inc, ec, files⟩, fns, log⟩ := m
  cases fns with
  | nil => cases inc <;> simp [after_scan, default_include_dir] at h
  | cons first rest =>
    refine ⟨first, rest, rfl, ?_⟩
    cases inc <;> cases out <;>
      simp only [after_scan, default_include_dir, resolve_output, if_true, if_false,
        reduceCtorEq] at h
    · cases hex : env.scu_extract_name first with
      | none => simp only [hex] at h; cases h
      | some name =>
        simp only [hex] at h
        have hc := create_files_returned env _ _ _ h
        simp [Machine.emit, hex] at hc ⊢
        obtain ⟨h1, h2, h3, h4, h5, h6, _⟩ := hc
        simp [h1, h2, h3, h4, h5, h6]
    · have hc := create_files_returned env _ _ _ h
      simp [Machine.emit] at hc ⊢
      obtain ⟨h1, h2, h3, h4, h5, h6, _⟩ := hc
      simp [h1, h2, h3, h4, h5, h6]
    · cases hex : env.scu_extract_name first with
      | none => simp only [hex] at h; cases h
      | some name =>
        simp only [hex] at h
        have hc := create_files_returned env _ _ _ h
        simp [Machine.emit, hex] at hc ⊢
        obtain ⟨h1, h2, h3, h4, h5, h6, _⟩ := hc
        simp [h1, h2, h3, h4, h5, h6]
    · have hc := create_files_returned env _ _ _ h
      simp [Machine.emit] at hc ⊢
      obtain ⟨h1, h2, h3, h4, h5, h6, _⟩ := hc
      simp [h1, h2, h3, h4, h5, h6]

/-! ## A returned configuration -/

theorem mem_output_values {f v : String} {toks : List Tok} (h : Tok.output f v ∈ toks) :
    v ∈ output_values toks :=
  List.mem_filterMap.mpr ⟨_, h, rfl⟩

theorem mem_include_values {f v : String} {toks : List Tok} (h : Tok.include_dir f v ∈ toks) :
    v ∈ include_values toks :=
  List.mem_filterMap.mpr ⟨_, h, rfl⟩

theorem of_mem_output_values {v : String} {toks : List Tok} (h : v ∈ output_values toks) :
    ∃ f, Tok.output f v ∈ toks := by
  obtain ⟨t, ht, hv⟩ := List.mem_filterMap.mp h
  cases t <;> simp only [Tok.output?, Option.some.injEq, reduceCtorEq] at hv
  subst hv
  exact ⟨_, ht⟩

theorem of_mem_include_values {v : String} {toks : List Tok} (h : v ∈ include_values toks) :
    ∃ f, Tok.include_dir f v ∈ toks := by
  obtain ⟨t, ht, hv⟩ := List.mem_filterMap.mp h
  cases t <;> simp only [Tok.include_dir?, Option.some.injEq, reduceCtorEq] at hv
  subst hv
  exact ⟨_, ht⟩

/-- A list of at most one element that has `v` in it is `[v]`. -/
theorem eq_singleton_of_mem {v : String} {l : List String} (h : v ∈ l) (hl : l.length ≤ 1) :
    l = [v] := by
  match l, h, hl with
  | [x], h, _ =>
    rw [List.mem_singleton] at h
    rw [h]
  | _ :: _ :: _, _, hl => simp at hl

/-- Everything that holds of a configuration the function returns, in terms
of the tokens of the command line. -/
theorem returned_spec {F : Type} (env : Env F) (s0 : cstate F) (argv : List String)
    (m : Machine F) (h : cstate_create_from_args env s0 argv.length argv = .returned m) :
    all_valid env (tokens argv.tail) = true ∧
    ∃ first rest, positional_tokens argv.tail = first :: rest ∧
      m.s.files.map some = (positional_tokens argv.tail).map env.create_new_fstate ∧
      m.s.include_dir = some ((include_values (tokens argv.tail)).head?.getD ".") ∧
      m.s.output_filepath =
        (if output_values (tokens argv.tail) = [] then env.scu_extract_name first
         else (output_values (tokens argv.tail)).head?) ∧
      m.s.output_filepath ≠ none ∧
      m.s.options.verbose = (s0.options.verbose || (tokens argv.tail).any Tok.is_verbose) ∧
      m.s.options.output = (s0.options.output || !(output_values (tokens argv.tail)).isEmpty) ∧
      m.s.options.include_dir_specified =
        (s0.options.include_dir_specified || !(include_values (tokens argv.tail)).isEmpty) ∧
      m.s.error_count = 0 ∧
      m.log = (include_values (tokens argv.tail)).map Event.stat ++
        (if output_values (tokens argv.tail) = [] then [Event.extract_name first] else []) ++
        (positional_tokens argv.tail).map Event.create_fstate := by
  match argv, h with
  | [], h => simp [cstate_create_from_args] at h
  | [_], h => simp [cstate_create_from_args] at h
  | prog :: a :: rest, h =>
    rw [create_from_args_eq] at h
    rw [List.tail_cons]
    cases hr : run_tokens env (tokens (a :: rest)) (start_machine s0) with
    | inr o =>
      rw [hr] at h
      obtain ⟨m2, hm2⟩ := run_tokens_inr env _ _ _ hr
      simp only at h
      rw [hm2] at h
      cases h
    | inl m1 =>
      rw [hr] at h
      simp only at h
      obtain ⟨hwf, ho, hov, hi, hiv, hverb, hout, hinc, herr, _, hfn, hlog⟩ :=
        run_tokens_inl env _ _ _ hr
      simp only [start_machine, Option.toList, List.nil_append] at ho hov hi hiv hverb hout
      simp only [start_machine, Option.toList, List.nil_append] at hinc herr hfn hlog
      obtain ⟨first, more, hfirst, hfiles, hdir, hpath, hne, hopts, hec, hl⟩ :=
        after_scan_returned env m1 m h
      have hpos : positional_tokens (a :: rest) = m1.filenames := hfn.symm
      refine ⟨?_, first, more, ?_, ?_, ?_, ?_, hne, ?_, ?_, ?_, ?_, ?_⟩
      · simp [all_valid, hwf, ho, hi]
      · rw [hpos, hfirst]
      · rw [hpos, hfiles]
      · rw [hdir, hiv]
      · rw [hpath, hov]
        cases hv : output_values (tokens (a :: rest)) <;> simp
      · rw [hopts, hverb]
      · rw [hopts, hout]
      · rw [hopts, hinc]
      · rw [hec, herr]
      · rw [hl, hlog, hov, hpos]
        cases hv : output_values (tokens (a :: rest)) <;> simp

/-! ## Valid prefixes and the token at which the scan stops -/

/-- The scan gets through a valid list of tokens, from the start machine. -/
theorem all_valid_run {F : Type} (env : Env F) (s0 : cstate F) (pre : List Tok)
    (h : all_valid env pre = true) :
    ∃ m1, run_tokens env pre (start_machine s0) = .inl m1 ∧
      m1.s.output_filepath = (output_values pre).head? ∧
      m1.s.include_dir = (include_values pre).head? ∧
      m1.s.error_count = 0 ∧
      m1.filenames = pre.filterMap Tok.positional? ∧
      m1.log = (include_values pre).map Event.stat := by
  simp only [all_valid, Bool.and_eq_true, decide_eq_true_eq] at h
  obtain ⟨⟨hwf, ho⟩, hi⟩ := h
  obtain ⟨m1, hm1⟩ := run_tokens_ok env pre (start_machine s0) hwf
    (by simpa [start_machine] using ho) (by simpa [start_machine] using hi)
  obtain ⟨_, _, hov, _, hiv, _, _, _, herr, _, hfn, hlog⟩ := run_tokens_inl env _ _ _ hm1
  refine ⟨m1, hm1, ?_, ?_, ?_, ?_, ?_⟩
  · simpa [start_machine] using hov
  · simpa [start_machine] using hiv
  · simpa [start_machine] using herr
  · simpa [start_machine] using hfn
  · simpa [start_machine] using hlog

/-- A list of tokens is not empty only if there is an argument to read. -/
theorem argv_of_tokens_ne_nil (argv : List String) (h : tokens argv.tail ≠ []) :
    ∃ prog a rest, argv = prog :: a :: rest := by
  match argv, h with
  | [], h => exact absurd rfl h
  | [_], h => exact absurd rfl h
  | prog :: a :: rest, _ => exact ⟨prog, a, rest, rfl⟩

/-- When the scan gets through the tokens before `t` and stops at `t`, the
function ends as the loop body does at `t`. -/
theorem create_from_args_stops {F : Type} (env : Env F) (s0 : cstate F)
    (argv : List String) (pre : List Tok) (t : Tok) (post : List Tok) (m1 : Machine F)
    (o : Outcome F) (h : tokens argv.tail = pre ++ t :: post)
    (hpre : run_tokens env pre (start_machine s0) = .inl m1)
    (hap : apply_tok env m1 t = .inr o) :
    cstate_create_from_args env s0 argv.length argv = o := by
  obtain ⟨prog, a, rest, rfl⟩ := argv_of_tokens_ne_nil argv (by rw [h]; simp)
  rw [List.tail_cons] at h
  rw [create_from_args_eq, h, run_tokens_append, hpre]
  simp only [run_tokens, hap]

/-- When the scan gets through all the tokens, the function goes on with the
code after the loop. -/
theorem create_from_args_scanned {F : Type} (env : Env F) (s0 : cstate F)
    (argv : List String) (hlen : 2 ≤ argv.length) (m1 : Machine F)
    (hrun : run_tokens env (tokens argv.tail) (start_machine s0) = .inl m1) :
    cstate_create_from_args env s0 argv.length argv = after_scan env m1 := by
  match argv, hlen with
  | prog :: a :: rest, _ =>
    rw [List.tail_cons] at hrun
    rw [create_from_args_eq, hrun]

/-- Reading a command line in two parts gives the tokens of the parts, when
the first part does not end in a flag that waits for its value. -/
theorem tokens_append (b : List String) :
    ∀ (a : List String), (∀ f, Tok.dangling f ∉ tokens a) →
      tokens (a ++ b) = tokens a ++ tokens b
  | [], _ => rfl
  | [t], h => by
    have hnv : ¬ (is_output_flag t ∨ is_include_flag t) := by
      intro hv
      by_cases hverb : is_verbose_flag t
      · rcases hv with ho | hi
        · unfold is_verbose_flag at hverb; unfold is_output_flag at ho
          rcases hverb with h1 | h1 <;> rcases ho with h2 | h2 <;> (rw [h1] at h2; exact absurd h2 (by decide))
        · unfold is_verbose_flag at hverb; unfold is_include_flag at hi
          rcases hverb with h1 | h1 <;> rcases hi with h2 | h2 <;> (rw [h1] at h2; exact absurd h2 (by decide))
      · exact h t (by simp [tokens, hverb, hv])
    have ho : ¬ is_output_flag t := fun x => hnv (Or.inl x)
    have hi : ¬ is_include_flag t := fun x => hnv (Or.inr x)
    cases b with
    | nil => simp [tokens]
    | cons v rest =>
      by_cases hverb : is_verbose_flag t
      · simp [tokens, hverb]
      · by_cases hd : begins_with_dash t = true
        · simp [tokens, hverb, hnv, ho, hi, hd]
        · simp [tokens, hverb, hnv, ho, hi, hd]
  | t :: v :: rest, h => by
    by_cases hverb : is_verbose_flag t
    · have h2 : ∀ f, Tok.dangling f ∉ tokens (v :: rest) := by
        intro f hf
        exact h f (by simp [tokens, hverb, hf])
      have ih := tokens_append b (v :: rest) h2
      rw [List.cons_append] at ih
      rw [List.cons_append, List.cons_append]
      simp only [tokens, if_pos hverb]
      rw [ih]
      rfl
    · by_cases ho : is_output_flag t
      · have h2 : ∀ f, Tok.dangling f ∉ tokens rest := by
          intro f hf
          exact h f (by simp [tokens, hverb, ho, hf])
        have ih := tokens_append b rest h2
        rw [List.cons_append, List.cons_append]
        simp only [tokens, if_neg hverb, if_pos ho]
        rw [ih]
        rfl
      · by_cases hi : is_include_flag t
        · have h2 : ∀ f, Tok.dangling f ∉ tokens rest := by
            intro f hf
            exact h f (by simp [tokens, hverb, ho, hi, hf])
          have ih := tokens_append b rest h2
          rw [List.cons_append, List.cons_append]
          simp only [tokens, if_neg hverb, if_neg ho, if_pos hi]
          rw [ih]
          rfl
        · have h2 : ∀ f, Tok.dangling f ∉ tokens (v :: rest) := by
            intro f hf
            by_cases hd : begins_with_dash t = true
            · exact h f (by simp [tokens, hverb, ho, hi, hd, hf])
            · exact h f (by simp [tokens, hverb, ho, hi, hd, hf])
          have ih := tokens_append b (v :: rest) h2
          rw [List.cons_append] at ih
          by_cases hd : begins_with_dash t = true
          · rw [List.cons_append, List.cons_append]
            simp only [tokens, if_neg hverb, if_neg ho, if_neg hi, if_pos hd]
            rw [ih]
            rfl
          · rw [List.cons_append, List.cons_append]
            simp only [tokens, if_neg hverb, if_neg ho, if_neg hi, if_neg hd]
            rw [ih]
            rfl

/-- A valid list of tokens has no flag that waits for its value. -/
theorem all_valid_no_dangling {F : Type} (env : Env F) (toks : List Tok)
    (h : all_valid env toks = true) : ∀ f, Tok.dangling f ∉ toks := by
  intro f hf
  simp only [all_valid, Bool.and_eq_true, List.all_eq_true] at h
  have := h.1.1 _ hf
  simp [Tok.well_formed] at this

theorem default_include_dir_filenames {F : Type} (m : Machine F) :
    (default_include_dir m).filenames = m.filenames := by
  unfold default_include_dir; split <;> rfl

theorem default_include_dir_log {F : Type} (m : Machine F) :
    (default_include_dir m).log = m.log := by
  unfold default_include_dir; split <;> rfl

theorem default_include_dir_output {F : Type} (m : Machine F) :
    (default_include_dir m).s.output_filepath = m.s.output_filepath := by
  unfold default_include_dir; split <;> rfl

theorem default_include_dir_error_count {F : Type} (m : Machine F) :
    (default_include_dir m).s.error_count = m.s.error_count := by
  unfold default_include_dir; split <;> rfl

/-- A token that begins with a dash and is none of the six flags is read as
an unknown option. -/
theorem tokens_unknown (t : String) (post : List String) (hdash : begins_with_dash t = true)
    (hv : ¬ is_verbose_flag t) (ho : ¬ is_output_flag t) (hi : ¬ is_include_flag t) :
    tokens (t :: post) = Tok.unknown t :: tokens post := by
  cases post with
  | nil => simp [tokens, hdash, hv, ho, hi]
  | cons v rest => simp [tokens, hdash, hv, ho, hi]

/-- The scan stops with one diagnostic: after a valid prefix, a token on
which the loop body reports `fmt` with `args`, having called at most `stat`
before, makes the resolution fail with that diagnostic. -/
theorem fails_after_valid {F : Type} (env : Env F) (s0 : cstate F) (argv : List String)
    (pre : List Tok) (t : Tok) (post : List Tok) (fmt : String) (args : List String)
    (h : tokens argv.tail = pre ++ t :: post) (hpre : all_valid env pre = true)
    (hap : ∀ m1 : Machine F, m1.s.output_filepath = (output_values pre).head? →
      m1.s.include_dir = (include_values pre).head? →
      ∃ m2, apply_tok env m1 t = .inr (.exited 1 (scu_perror m2 fmt args)) ∧
        diagnostics m2.log = diagnostics m1.log) :
    FailsWith (cstate_create_from_args env s0 argv.length argv) fmt args := by
  obtain ⟨m1, hrun, hov, hiv, _, _, hlog⟩ := all_valid_run env s0 pre hpre
  obtain ⟨m2, hm2, hd⟩ := hap m1 hov hiv
  rw [create_from_args_stops env s0 argv pre t post m1 _ h hrun hm2]
  simp [FailsWith, scu_perror, diagnostics_append, hd, hlog, (calls_map_stat _).1, diagnostics]

/-! ## The code after the scan, case by case -/

theorem after_scan_no_files {F : Type} (env : Env F) (m : Machine F)
    (hfn : m.filenames = []) :
    after_scan env m =
      .exited 1 (scu_perror (default_include_dir m) "Missing input filename\n" []) := by
  have hnil : (default_include_dir m).filenames = [] := by
    rw [default_include_dir_filenames, hfn]
  simp only [after_scan, hnil]

theorem after_scan_no_name {F : Type} (env : Env F) (m : Machine F) (first : String)
    (rest : List String) (hfn : m.filenames = first :: rest)
    (hout : m.s.output_filepath = none) (hex : env.scu_extract_name first = none) :
    after_scan env m =
      .exited 1 (scu_perror ((default_include_dir m).emit (Event.extract_name first))
        "Failed to extract filename.\n" []) := by
  have hc : (default_include_dir m).filenames = first :: rest := by
    rw [default_include_dir_filenames, hfn]
  have ho : (default_include_dir m).s.output_filepath = none := by
    rw [default_include_dir_output, hout]
  simp only [after_scan, hc, resolve_output, ho, if_true, hex]

theorem after_scan_derived {F : Type} (env : Env F) (m : Machine F) (first : String)
    (rest : List String) (name : String) (hfn : m.filenames = first :: rest)
    (hout : m.s.output_filepath = none) (hex : env.scu_extract_name first = some name) :
    after_scan env m =
      create_files env (first :: rest)
        { s := { (default_include_dir m).s with output_filepath := some name, files := [] }
          filenames := first :: rest
          log := m.log ++ [Event.extract_name first] } := by
  have hc : (default_include_dir m).filenames = first :: rest := by
    rw [default_include_dir_filenames, hfn]
  have ho : (default_include_dir m).s.output_filepath = none := by
    rw [default_include_dir_output, hout]
  simp only [after_scan, hc, resolve_output, ho, if_true, hex, Machine.emit,
    default_include_dir_log]

theorem after_scan_given {F : Type} (env : Env F) (m : Machine F) (first : String)
    (rest : List String) (hfn : m.filenames = first :: rest)
    (hout : m.s.output_filepath ≠ none) :
    after_scan env m =
      create_files env (first :: rest)
        { s := { (default_include_dir m).s with files := [] }
          filenames := first :: rest
          log := m.log } := by
  have hc : (default_include_dir m).filenames = first :: rest := by
    rw [default_include_dir_filenames, hfn]
  have ho : ¬ (default_include_dir m).s.output_filepath = none := by
    rw [default_include_dir_output]; exact hout
  simp only [after_scan, hc, resolve_output, if_neg ho, default_include_dir_log]

/-- The loop over the filenames ends with a machine, whose output path is the
one it started with and whose log has no further call of `stat` or of the
name derivation. -/
theorem create_files_frame {F : Type} (env : Env F) (names : List String) :
    ∀ (m : Machine F), ∃ m1, (create_files env names m).machine? = some m1 ∧
      m1.s.output_filepath = m.s.output_filepath ∧
      m1.s.include_dir = m.s.include_dir ∧
      m1.s.options = m.s.options ∧
      extract_calls m1.log = extract_calls m.log ∧
      stat_calls m1.log = stat_calls m.log := by
  induction names with
  | nil => intro m; exact ⟨_, rfl, rfl, rfl, rfl, rfl, rfl⟩
  | cons n ns ih =>
    intro m
    rw [create_files]
    cases hc : env.create_new_fstate n with
    | none =>
      refine ⟨_, rfl, rfl, rfl, rfl, ?_, ?_⟩
      · simp [scu_perror, Machine.emit, extract_calls_append, extract_calls]
      · simp [scu_perror, Machine.emit, stat_calls_append, stat_calls]
    | some fst =>
      obtain ⟨m1, h1, h2, h3, h4, h5, h6⟩ :=
        ih { m.emit (Event.create_fstate n) with
              s := { (m.emit (Event.create_fstate n)).s with
                      files := (m.emit (Event.create_fstate n)).s.files ++ [fst] } }
      refine ⟨m1, h1, h2, h3, h4, ?_, ?_⟩
      · rw [h5]; simp [Machine.emit, extract_calls_append, extract_calls]
      · rw [h6]; simp [Machine.emit, stat_calls_append, stat_calls]

/-- A scan that does not get through its tokens got through some of them and
stopped at the next. -/
theorem run_tokens_inr_split {F : Type} (env : Env F) (toks : List Tok) :
    ∀ (m : Machine F) (o : Outcome F), run_tokens env toks m = .inr o →
      ∃ pre t post m1, toks = pre ++ t :: post ∧ run_tokens env pre m = .inl m1 ∧
        apply_tok env m1 t = .inr o := by
  induction toks with
  | nil => intro m o h; cases h
  | cons t ts ih =>
    intro m o h
    rw [run_tokens] at h
    cases hap : apply_tok env m t with
    | inl m2 =>
      rw [hap] at h
      obtain ⟨pre, t2, post, m1, hsplit, hrun, hstop⟩ := ih m2 o h
      refine ⟨t :: pre, t2, post, m1, by rw [hsplit]; rfl, ?_, hstop⟩
      rw [run_tokens, hap]
      exact hrun
    | inr o2 =>
      rw [hap] at h
      simp only [Sum.inr.injEq] at h
      subst h
      exact ⟨[], t, ts, m, rfl, rfl, hap⟩

/-- When the loop body stops at a token, it reports one diagnostic, counts it,
and exits with status 1, having at most called `stat` once before. -/
theorem apply_tok_inr {F : Type} (env : Env F) (m : Machine F) (t : Tok) (o : Outcome F)
    (h : apply_tok env m t = .inr o) :
    ∃ (fmt : String) (args calls : List String), o = .exited 1
        { s := { m.s with error_count := m.s.error_count + 1 }
          filenames := m.filenames
          log := m.log ++ calls.map Event.stat ++ [Event.diagnostic fmt args] } ∧
      calls.length ≤ 1 := by
  cases t with
  | verbose f => simp [apply_tok] at h
  | output f v =>
    simp only [apply_tok] at h
    split at h
    · simp only [Sum.inr.injEq] at h
      exact ⟨"Output specified more than once: %s\n", [v], [],
        by rw [← h]; simp [scu_perror], by simp⟩
    · cases h
  | include_dir f v =>
    simp only [apply_tok] at h
    split at h
    · simp only [Sum.inr.injEq] at h
      exact ⟨"Include directory specified more than once: %s\n", [v], [],
        by rw [← h]; simp [scu_perror], by simp⟩
    · cases hst : env.stat v with
      | missing =>
        rw [hst] at h; simp only [Sum.inr.injEq] at h
        exact ⟨"Include directory does not exist: %s\n", [v], [v],
          by rw [← h]; simp [scu_perror, Machine.emit], by simp⟩
      | not_dir =>
        rw [hst] at h; simp only [Sum.inr.injEq] at h
        exact ⟨"Path is not a directory: %s\n", [v], [v],
          by rw [← h]; simp [scu_perror, Machine.emit], by simp⟩
      | dir => rw [hst] at h; cases h
  | positional n => simp [apply_tok] at h
  | dangling f =>
    simp only [apply_tok] at h
    split at h
    · simp only [Sum.inr.injEq] at h
      exact ⟨"Missing filename after %s\n", [f], [], by rw [← h]; simp [scu_perror], by simp⟩
    · simp only [Sum.inr.injEq] at h
      exact ⟨"Missing directory path after %s\n", [f], [],
        by rw [← h]; simp [scu_perror], by simp⟩
  | unknown u =>
    simp only [apply_tok, Sum.inr.injEq] at h
    exact ⟨"Unknown option: %s\n", [u], [], by rw [← h]; simp [scu_perror], by simp⟩

/-- The six flags begin with a dash. -/
theorem not_flag_of_no_dash (t : String) (h : begins_with_dash t = false) :
    ¬ is_verbose_flag t ∧ ¬ is_output_flag t ∧ ¬ is_include_flag t := by
  refine ⟨?_, ?_, ?_⟩
  · rintro (rfl | rfl) <;> exact absurd h (by decide)
  · rintro (rfl | rfl) <;> exact absurd h (by decide)
  · rintro (rfl | rfl) <;> exact absurd h (by decide)

/-- The run on one filename and nothing else, when the name is derived and
the state is created: every field is as the specification says, except that
`options` is the one of the allocated block. -/
theorem single_file_resolved {F : Type} (env : Env F) (s0 : cstate F) (file name : String)
    (fst : F) (hdash : begins_with_dash file = false)
    (hex : env.scu_extract_name file = some name)
    (hc : env.create_new_fstate file = some fst) :
    cstate_create_from_args env s0 2 ["prog", file] =
      .returned
        { s := { options := s0.options, output_filepath := some name, include_dir := some "."
                 error_count := 0, files := [fst] }
          filenames := []
          log := [.extract_name file, .create_fstate file] } := by
  obtain ⟨hv, ho, hi⟩ := not_flag_of_no_dash file hdash
  have hoi : ¬ (is_output_flag file ∨ is_include_flag file) := by
    rintro (h | h)
    · exact ho h
    · exact hi h
  have hlen : (2 : Nat) = ["prog", file].length := rfl
  have htok : tokens [file] = [.positional file] := by
    simp [tokens, hv, hoi, hdash]
  rw [hlen, create_from_args_eq, htok]
  simp [run_tokens, apply_tok, start_machine, after_scan, default_include_dir, resolve_output,
    create_files, hex, hc, Machine.emit]

/-! ## How a run fails -/

/-- Either the factory yields a state for every filename, or there is a first
filename for which it does not. -/
theorem first_failure {F : Type} (env : Env F) (names : List String) :
    (∀ n ∈ names, env.create_new_fstate n ≠ none) ∨
    ∃ pre bad post, names = pre ++ bad :: post ∧
      (∀ n ∈ pre, env.create_new_fstate n ≠ none) ∧ env.create_new_fstate bad = none := by
  induction names with
  | nil => left; intro n hn; cases hn
  | cons a more ih =>
    cases ha : env.create_new_fstate a with
    | none =>
      right
      refine ⟨[], a, more, rfl, ?_, ha⟩
      intro n hn
      cases hn
    | some fst =>
      rcases ih with hall | ⟨pre, bad, post, hsplit, hpre, hbad⟩
      · left
        intro n hn
        rcases List.mem_cons.mp hn with rfl | hmem
        · rw [ha]; simp
        · exact hall n hmem
      · right
        refine ⟨a :: pre, bad, post, by rw [hsplit]; rfl, ?_, hbad⟩
        intro n hn
        rcases List.mem_cons.mp hn with rfl | hmem
        · rw [ha]; simp
        · exact hpre n hmem

/-- The loop over the filenames stops at the first filename for which the
factory yields no state: it has called the factory on the filenames up to
that one and on no later one, reports that filename, and exits. -/
theorem create_files_fails_at {F : Type} (env : Env F) (bad : String) (post : List String)
    (hbad : env.create_new_fstate bad = none) (pre : List String) :
    ∀ (m : Machine F), (∀ n ∈ pre, env.create_new_fstate n ≠ none) →
      ∃ m1, create_files env (pre ++ bad :: post) m = .exited 1 m1 ∧
        m1.log = m.log ++ (pre ++ [bad]).map Event.create_fstate ++
          [Event.diagnostic "Failed to create fstate for: %s\n" [bad]] ∧
        m1.s.error_count = m.s.error_count + 1 ∧
        m1.s.output_filepath = m.s.output_filepath ∧
        m1.s.include_dir = m.s.include_dir ∧
        m1.s.options = m.s.options := by
  induction pre with
  | nil =>
    intro m _
    refine ⟨scu_perror (m.emit (Event.create_fstate bad))
      "Failed to create fstate for: %s\n" [bad], ?_, ?_, rfl, rfl, rfl, rfl⟩
    · rw [List.nil_append, create_files, hbad]
    · simp [scu_perror, Machine.emit]
  | cons a more ih =>
    intro m hpre
    cases ha : env.create_new_fstate a with
    | none => exact absurd ha (hpre a (List.mem_cons_self a more))
    | some fst =>
      obtain ⟨m1, hrun, hlog, hec, hout, hinc, hopt⟩ :=
        ih { m.emit (Event.create_fstate a) with
              s := { (m.emit (Event.create_fstate a)).s with
                      files := (m.emit (Event.create_fstate a)).s.files ++ [fst] } }
          (fun n hn => hpre n (List.mem_cons_of_mem a hn))
      refine ⟨m1, ?_, ?_, hec, hout, hinc, hopt⟩
      · rw [List.cons_append, create_files, ha]
        exact hrun
      · rw [hlog]
        simp [Machine.emit]

/-- The events of a log made of `stat` calls, factory calls and name
derivations hold no diagnostic. -/
theorem diagnostics_map_extract (ps : List String) :
    diagnostics (ps.map Event.extract_name) = [] ∧
      stat_calls (ps.map Event.extract_name) = [] ∧
      create_calls (ps.map Event.extract_name) = [] := by
  induction ps with
  | nil => exact ⟨rfl, rfl, rfl⟩
  | cons p ps ih => simp [diagnostics, stat_calls, create_calls, ih.1, ih.2.1, ih.2.2]

/-- The code after the scan, started from a machine that has reported no
diagnostic and called the factory on nothing, ends in a return or in an exit
with status 1 after exactly one diagnostic, counted once; and unless that
diagnostic is the factory's, the factory was never called. -/
theorem after_scan_exited {F : Type} (env : Env F) (m : Machine F) (st : Nat)
    (m1 : Machine F) (hd : diagnostics m.log = []) (hc : create_calls m.log = [])
    (h : after_scan env m = .exited st m1) :
    st = 1 ∧ m1.s.error_count = m.s.error_count + 1 ∧
      ∃ fmt args, diagnostics m1.log = [Event.diagnostic fmt args] ∧
        (fmt = "Missing input filename\n" ∨ fmt = "Failed to extract filename.\n" ∨
          fmt = "Failed to create fstate for: %s\n") ∧
        (fmt ≠ "Failed to create fstate for: %s\n" → create_calls m1.log = []) := by
  have key : ∀ (names : List String) (m0 : Machine F), diagnostics m0.log = [] →
      create_files env names m0 = .exited st m1 →
      st = 1 ∧ m1.s.error_count = m0.s.error_count + 1 ∧
        diagnostics m1.log =
          [Event.diagnostic "Failed to create fstate for: %s\n" [(create_calls m1.log).getLastD ""]]
        := by
    intro names m0 hd0 hrun
    rcases first_failure env names with hall | ⟨pre, bad, post, hsplit, hpre, hbad⟩
    · obtain ⟨m2, hm2⟩ := create_files_ok env names m0 hall
      rw [hm2] at hrun
      cases hrun
    · obtain ⟨m2, hm2, hlog, hec, _, _, _⟩ := create_files_fails_at env bad post hbad pre m0 hpre
      rw [hsplit, hm2] at hrun
      simp only [Outcome.exited.injEq] at hrun
      obtain ⟨hst, hmm⟩ := hrun
      subst hmm
      refine ⟨hst.symm, hec, ?_⟩
      rw [hlog]
      simp [diagnostics_append, create_calls_append, hd0, (calls_map_create _).1,
        (calls_map_create _).2.2.2, diagnostics, create_calls]
  cases hfn : m.filenames with
  | nil =>
    rw [after_scan_no_files env m hfn] at h
    simp only [Outcome.exited.injEq] at h
    obtain ⟨hst, hmm⟩ := h
    subst hmm
    refine ⟨hst.symm, ?_, "Missing input filename\n", [], ?_, Or.inl rfl, ?_⟩
    · simp [scu_perror, default_include_dir_error_count]
    · simp [scu_perror, default_include_dir_log, diagnostics_append, hd, diagnostics]
    · intro _
      simp [scu_perror, default_include_dir_log, create_calls_append, hc, create_calls]
  | cons first rest =>
    cases hout : m.s.output_filepath with
    | none =>
      cases hex : env.scu_extract_name first with
      | none =>
        rw [after_scan_no_name env m first rest hfn hout hex] at h
        simp only [Outcome.exited.injEq] at h
        obtain ⟨hst, hmm⟩ := h
        subst hmm
        refine ⟨hst.symm, ?_, "Failed to extract filename.\n", [], ?_, Or.inr (Or.inl rfl), ?_⟩
        · simp [scu_perror, Machine.emit, default_include_dir_error_count]
        · simp [scu_perror, Machine.emit, default_include_dir_log, diagnostics_append, hd,
            diagnostics]
        · intro _
          simp [scu_perror, Machine.emit, default_include_dir_log, create_calls_append, hc,
            create_calls]
      | some name =>
        rw [after_scan_derived env m first rest name hfn hout hex] at h
        obtain ⟨hst, hec, hdiag⟩ := key _ _
          (by simp [diagnostics_append, hd, diagnostics]) h
        refine ⟨hst, ?_, _, _, hdiag, Or.inr (Or.inr rfl), fun hne => absurd rfl hne⟩
        rw [hec]
        simp [default_include_dir_error_count]
    | some o =>
      rw [after_scan_given env m first rest hfn (by rw [hout]; simp)] at h
      obtain ⟨hst, hec, hdiag⟩ := key _ _ (by exact hd) h
      refine ⟨hst, ?_, _, _, hdiag, Or.inr (Or.inr rfl), fun hne => absurd rfl hne⟩
      rw [hec]
      simp [default_include_dir_error_count]

/-- The diagnostic with which the loop body stops at a token is one of the
diagnostics of the scan. -/
theorem apply_tok_inr_fmt {F : Type} (env : Env F) (m : Machine F) (t : Tok) (o : Outcome F)
    (h : apply_tok env m t = .inr o) :
    ∃ (fmt : String) (args calls : List String), o = .exited 1
        { s := { m.s with error_count := m.s.error_count + 1 }
          filenames := m.filenames
          log := m.log ++ calls.map Event.stat ++ [Event.diagnostic fmt args] } ∧
      fmt ∈ scan_formats := by
  cases t with
  | verbose f => simp [apply_tok] at h
  | output f v =>
    simp only [apply_tok] at h
    split at h
    · simp only [Sum.inr.injEq] at h
      exact ⟨"Output specified more than once: %s\n", [v], [],
        by rw [← h]; simp [scu_perror], by decide⟩
    · cases h
  | include_dir f v =>
    simp only [apply_tok] at h
    split at h
    · simp only [Sum.inr.injEq] at h
      exact ⟨"Include directory specified more than once: %s\n", [v], [],
        by rw [← h]; simp [scu_perror], by decide⟩
    · cases hst : env.stat v with
      | missing =>
        rw [hst] at h; simp only [Sum.inr.injEq] at h
        exact ⟨"Include directory does not exist: %s\n", [v], [v],
          by rw [← h]; simp [scu_perror, Machine.emit], by decide⟩
      | not_dir =>
        rw [hst] at h; simp only [Sum.inr.injEq] at h
        exact ⟨"Path is not a directory: %s\n", [v], [v],
          by rw [← h]; simp [scu_perror, Machine.emit], by decide⟩
      | dir => rw [hst] at h; cases h
  | positional n => simp [apply_tok] at h
  | dangling f =>
    simp only [apply_tok] at h
    split at h
    · simp only [Sum.inr.injEq] at h
      exact ⟨"Missing filename after %s\n", [f], [], by rw [← h]; simp [scu_perror],
        by decide⟩
    · simp only [Sum.inr.injEq] at h
      exact ⟨"Missing directory path after %s\n", [f], [],
        by rw [← h]; simp [scu_perror], by decide⟩
  | unknown u =>
    simp only [apply_tok, Sum.inr.injEq] at h
    exact ⟨"Unknown option: %s\n", [u], [], by rw [← h]; simp [scu_perror], by decide⟩

/-- A scan that stops: the run exits with status 1 after one diagnostic of
the scan, counted once, with no call of the name derivation or the factory. -/
theorem scan_stops_spec {F : Type} (env : Env F) (s0 : cstate F) (toks : List Tok)
    (o : Outcome F) (h : run_tokens env toks (start_machine s0) = .inr o) :
    ∃ m fmt args, o = .exited 1 m ∧ m.s.error_count = 1 ∧
      diagnostics m.log = [Event.diagnostic fmt args] ∧ fmt ∈ scan_formats ∧
      create_calls m.log = [] ∧ extract_calls m.log = [] := by
  obtain ⟨pre, t, post, m1, _, hpre, hstop⟩ := run_tokens_inr_split env _ _ _ h
  obtain ⟨_, _, _, _, _, _, _, _, herr, _, _, hlog⟩ := run_tokens_inl env _ _ _ hpre
  simp only [start_machine, List.nil_append] at herr hlog
  obtain ⟨fmt, args, calls, ho, hfmt⟩ := apply_tok_inr_fmt env m1 t o hstop
  refine ⟨_, fmt, args, ho, ?_, ?_, hfmt, ?_, ?_⟩
  · simp [herr]
  · simp [hlog, diagnostics_append, (calls_map_stat _).1, diagnostics]
  · simp [hlog, create_calls_append, (calls_map_stat _).2.2.2, create_calls]
  · simp [hlog, extract_calls_append, (calls_map_stat _).2.2.1, extract_calls]

/-- A scan that gets through found all its tokens valid. -/
theorem all_valid_of_run {F : Type} (env : Env F) (s0 : cstate F) (toks : List Tok)
    (m1 : Machine F) (h : run_tokens env toks (start_machine s0) = .inl m1) :
    all_valid env toks = true := by
  obtain ⟨hwf, ho, _, hi, _⟩ := run_tokens_inl env _ _ _ h
  simp only [start_machine, Option.toList, List.nil_append] at ho hi
  simp [all_valid, hwf, ho, hi]

/-- The code after the scan returns or exits with status 1. -/
theorem after_scan_total {F : Type} (env : Env F) (m : Machine F) :
    (∃ m1, after_scan env m = .returned m1) ∨ (∃ m1, after_scan env m = .exited 1 m1) := by
  have key : ∀ (names : List String) (m0 : Machine F),
      (∃ m1, create_files env names m0 = .returned m1) ∨
        (∃ m1, create_files env names m0 = .exited 1 m1) := by
    intro names m0
    rcases first_failure env names with hall | ⟨pre, bad, post, hsplit, hpre, hbad⟩
    · exact Or.inl (create_files_ok env names m0 hall)
    · obtain ⟨m2, hm2, _⟩ := create_files_fails_at env bad post hbad pre m0 hpre
      exact Or.inr ⟨m2, by rw [hsplit, hm2]⟩
  cases hfn : m.filenames with
  | nil => exact Or.inr ⟨_, after_scan_no_files env m hfn⟩
  | cons first rest =>
    cases hout : m.s.output_filepath with
    | none =>
      cases hex : env.scu_extract_name first with
      | none => exact Or.inr ⟨_, after_scan_no_name env m first rest hfn hout hex⟩
      | some name =>
        rw [after_scan_derived env m first rest name hfn hout hex]
        exact key _ _
    | some o =>
      rw [after_scan_given env m first rest hfn (by rw [hout]; simp)]
      exact key _ _

/-- The function returns or exits with status 1: the model neither reads
outside `argv` nor runs out of fuel. -/
theorem create_from_args_total {F : Type} (env : Env F) (s0 : cstate F)
    (argv : List String) :
    (∃ m, cstate_create_from_args env s0 argv.length argv = .returned m) ∨
      (∃ m, cstate_create_from_args env s0 argv.length argv = .exited 1 m) := by
  match argv with
  | [] => right; exact ⟨_, by simp [cstate_create_from_args]; rfl⟩
  | [_] => right; exact ⟨_, by simp [cstate_create_from_args]; rfl⟩
  | prog :: a :: rest =>
    rw [create_from_args_eq]
    cases hr : run_tokens env (tokens (a :: rest)) (start_machine s0) with
    | inl m1 => exact after_scan_total env m1
    | inr o =>
      obtain ⟨m1, hm1⟩ := run_tokens_inr env _ _ _ hr
      exact Or.inr ⟨m1, hm1⟩

/-- A run that exits, with at least one argument after the program name:
status 1, one diagnostic, counted once; unless the diagnostic is the
factory's, the factory was never called. -/
theorem exited_spec {F : Type} (env : Env F) (s0 : cstate F) (argv : List String)
    (hlen : 2 ≤ argv.length) (st : Nat) (m : Machine F)
    (h : cstate_create_from_args env s0 argv.length argv = .exited st m) :
    st = 1 ∧ m.s.error_count = 1 ∧
      ∃ fmt args, diagnostics m.log = [Event.diagnostic fmt args] ∧
        (fmt ≠ "Failed to create fstate for: %s\n" → create_calls m.log = []) := by
  match argv, hlen with
  | prog :: a :: rest, _ =>
    rw [create_from_args_eq] at h
    cases hr : run_tokens env (tokens (a :: rest)) (start_machine s0) with
    | inl m1 =>
      rw [hr] at h
      simp only at h
      obtain ⟨_, _, _, _, _, _, _, _, herr, _, _, hlog⟩ := run_tokens_inl env _ _ _ hr
      simp only [start_machine, List.nil_append] at herr hlog
      obtain ⟨hst, hec, fmt, args, hd, _, hc⟩ := after_scan_exited env m1 st m
        (by rw [hlog, (calls_map_stat _).1]) (by rw [hlog, (calls_map_stat _).2.2.2]) h
      exact ⟨hst, by rw [hec, herr]; rfl, fmt, args, hd, hc⟩
    | inr o =>
      rw [hr] at h
      simp only at h
      obtain ⟨m1, fmt, args, ho, hec, hd, _, hc, _⟩ := scan_stops_spec env s0 _ o hr
      rw [ho] at h
      simp only [Outcome.exited.injEq] at h
      obtain ⟨hst, hmm⟩ := h
      subst hmm
      exact ⟨hst.symm, hec, fmt, args, hd, fun _ => hc⟩

/-! ## The six flags are distinct -/

theorem output_flag_not_verbose (f : String) (h : is_output_flag f) : ¬ is_verbose_flag f := by
  rcases h with rfl | rfl <;> decide

theorem include_flag_not_verbose (f : String) (h : is_include_flag f) :
    ¬ is_verbose_flag f := by
  rcases h with rfl | rfl <;> decide

theorem include_flag_not_output (f : String) (h : is_include_flag f) : ¬ is_output_flag f := by
  rcases h with rfl | rfl <;> decide

/-- An output flag and the token after it are read as one token. -/
theorem tokens_output (f v : String) (post : List String) (h : is_output_flag f) :
    tokens (f :: v :: post) = Tok.output f v :: tokens post := by
  simp [tokens, output_flag_not_verbose f h, h]

/-- An include-directory flag and the token after it are read as one token. -/
theorem tokens_include (f v : String) (post : List String) (h : is_include_flag f) :
    tokens (f :: v :: post) = Tok.include_dir f v :: tokens post := by
  simp [tokens, include_flag_not_verbose f h, include_flag_not_output f h, h]

/-- A value-taking flag that ends the command line waits for its value. -/
theorem tokens_dangling (f : String) (h : is_output_flag f ∨ is_include_flag f) :
    tokens [f] = [Tok.dangling f] := by
  have hv : ¬ is_verbose_flag f := by
    rcases h with h | h
    · exact output_flag_not_verbose f h
    · exact include_flag_not_verbose f h
  simp [tokens, hv, h]

/-- In a returned configuration the factory was called on the positional
tokens, in order, and on nothing else. -/
theorem returned_create_calls {F : Type} (env : Env F) (s0 : cstate F) (argv : List String)
    (m : Machine F) (h : cstate_create_from_args env s0 argv.length argv = .returned m) :
    create_calls m.log = positional_tokens argv.tail := by
  obtain ⟨_, first, rest, _, _, _, _, _, _, _, _, _, hlog⟩ := returned_spec env s0 argv m h
  rw [hlog, create_calls_append, create_calls_append, (calls_map_stat _).2.2.2,
    (calls_map_create _).2.2.2]
  split <;> simp [create_calls]

/-- The positional tokens of a list of tokens in two parts. -/
theorem filterMap_positional_append (a b : List Tok) :
    (a ++ b).filterMap Tok.positional? =
      a.filterMap Tok.positional? ++ b.filterMap Tok.positional? :=
  List.filterMap_append a b Tok.positional?

/-! ## The assembler command -/

/-- A string has at least as many bytes as characters. -/
theorem c_bytes_length_ge (s : String) : s.data.length ≤ (c_bytes s).length := by
  unfold c_bytes
  induction s.data with
  | nil => simp
  | cons c cs ih =>
    have hpos : 0 < c.utf8Size := Char.utf8Size_pos c
    simp only [List.flatMap_cons, List.length_append, List.length_cons,
      String.length_utf8EncodeChar]
    omega

/-- The command given to `system` is what `snprintf` left in the buffer of
512 bytes, whatever `system` returns. -/
theorem fasm_assemble_command (system : List UInt8 → Int) (output_file asm_file : String) :
    (fasm_assemble system output_file asm_file).command =
      snprintf_bytes 512 (c_bytes (fasm_format asm_file output_file)) := by
  unfold fasm_assemble
  by_cases hr : system (snprintf_bytes 512 (c_bytes (fasm_format asm_file output_file))) ≠ 0
  · simp only [if_pos hr]
  · simp only [if_neg hr]

/-! ## A value-taking flag and its value, in the loop body -/

/-- The loop body at an output flag that has a token after it: that token,
whatever it is, is reported as the repeated output or stored as the output
path, and the cursor moves past it. -/
theorem scan_step_output {F : Type} (env : Env F) (argv : List String) (i : Nat)
    (m : Machine F) (f v : String) (hf : argv[i]? = some f) (hv : argv[i + 1]? = some v)
    (ho : is_output_flag f) :
    scan_step env argv.length argv i m =
      if m.s.output_filepath ≠ none then
        .halt (.exited 1 (scu_perror m "Output specified more than once: %s\n" [v]))
      else
        .next (i + 2)
          { m with s := { m.s with
              output_filepath := some v
              options := { m.s.options with output := true } } } := by
  have hlt : i + 1 < argv.length := (List.getElem?_eq_some.mp hv).1
  have hn : ¬ (i + 1 ≥ argv.length) := by omega
  have hverb : ¬ (f = "--verbose" ∨ f = "-v") := output_flag_not_verbose f ho
  have ho1 : f = "--output" ∨ f = "-o" := ho
  simp only [scan_step, hf, hv, if_neg hverb, if_pos ho1, if_neg hn]

/-- The loop body at an include-directory flag that has a token after it: that
token, whatever it is, is reported as the repeated include directory or given
to `stat`, and then reported as missing, as no directory, or stored as the
include directory with the cursor moved past it. -/
theorem scan_step_include {F : Type} (env : Env F) (argv : List String) (i : Nat)
    (m : Machine F) (f v : String) (hf : argv[i]? = some f) (hv : argv[i + 1]? = some v)
    (hi : is_include_flag f) :
    scan_step env argv.length argv i m =
      if m.s.include_dir ≠ none then
        .halt (.exited 1
          (scu_perror m "Include directory specified more than once: %s\n" [v]))
      else
        match env.stat v with
        | .missing =>
          .halt (.exited 1 (scu_perror (m.emit (Event.stat v))
            "Include directory does not exist: %s\n" [v]))
        | .not_dir =>
          .halt (.exited 1 (scu_perror (m.emit (Event.stat v))
            "Path is not a directory: %s\n" [v]))
        | .dir =>
          .next (i + 2)
            { m with
              s := { m.s with
                include_dir := some v
                options := { m.s.options with include_dir_specified := true } }
              log := m.log ++ [Event.stat v] } := by
  have hlt : i + 1 < argv.length := (List.getElem?_eq_some.mp hv).1
  have hn : ¬ (i + 1 ≥ argv.length) := by omega
  have hverb : ¬ (f = "--verbose" ∨ f = "-v") := include_flag_not_verbose f hi
  have hout : ¬ (f = "--output" ∨ f = "-o") := include_flag_not_output f hi
  have hi1 : f = "--include_dir" ∨ f = "-i" := hi
  simp only [scan_step, hf, hv, if_neg hverb, if_neg hout, if_pos hi1, if_neg hn]
  by_cases hd : m.s.include_dir ≠ none
  · simp only [if_pos hd]
  · simp only [if_neg hd]
    cases env.stat v <;> rfl

/-- Resolution returns when the tokens are all valid, there is a positional
token, the output name is resolved and the factory yields a state for every
positional token. -/
theorem returns_of_valid {F : Type} (env : Env F) (s0 : cstate F) (argv : List String)
    (first : String) (rest : List String)
    (hvalid : all_valid env (tokens argv.tail) = true)
    (hpos : positional_tokens argv.tail = first :: rest)
    (hname : output_values (tokens argv.tail) = [] → env.scu_extract_name first ≠ none)
    (hfac : ∀ n ∈ positional_tokens argv.tail, env.create_new_fstate n ≠ none) :
    ∃ m, cstate_create_from_args env s0 argv.length argv = .returned m := by
  obtain ⟨m1, hrun, hov, _, _, hfn, _⟩ := all_valid_run env s0 _ hvalid
  have hfn1 : m1.filenames = first :: rest := by rw [hfn]; exact hpos
  have hne : tokens argv.tail ≠ [] := by
    intro hnil
    rw [positional_tokens, hnil] at hpos
    cases hpos
  obtain ⟨prog, a, more, rfl⟩ := argv_of_tokens_ne_nil argv hne
  rw [create_from_args_scanned env s0 _ (by simp) m1 hrun]
  rw [hpos] at hfac
  cases hout : m1.s.output_filepath with
  | none =>
    have hnil : output_values (tokens (prog :: a :: more).tail) = [] := by
      cases hv : output_values (tokens (prog :: a :: more).tail) with
      | nil => rfl
      | cons v vs => rw [hv] at hov; rw [hov] at hout; cases hout
    cases hex : env.scu_extract_name first with
    | none => exact absurd hex (hname hnil)
    | some name =>
      rw [after_scan_derived env m1 first rest name hfn1 hout hex]
      exact create_files_ok env _ _ hfac
  | some o =>
    rw [after_scan_given env m1 first rest hfn1 (by rw [hout]; simp)]
    exact create_files_ok env _ _ hfac

/-- Valid tokens before and after an output flag with its value, none of them
an output flag, with at most one include directory among them, are valid
together with it. -/
theorem all_valid_around_output {F : Type} (env : Env F) (a b : List Tok) (f v : String)
    (ha : all_valid env a = true) (hb : all_valid env b = true)
    (hoa : output_values a = []) (hob : output_values b = [])
    (hinc : (include_values a ++ include_values b).length ≤ 1) :
    all_valid env (a ++ Tok.output f v :: b) = true := by
  simp only [all_valid, Bool.and_eq_true, decide_eq_true_eq] at ha hb ⊢
  refine ⟨⟨?_, ?_⟩, ?_⟩
  · rw [List.all_append, List.all_cons, ha.1.1, hb.1.1]
    rfl
  · simp only [output_values, List.filterMap_append, List.filterMap_cons, Tok.output?] at hoa hob ⊢
    rw [hoa, hob]
    simp
  · simp only [include_values, List.filterMap_append, List.filterMap_cons,
      Tok.include_dir?] at hinc ⊢
    simpa using hinc

/-- Valid tokens before and after an include-directory flag whose value is a
directory, none of them an include-directory flag, with at most one output
among them, are valid together with it. -/
theorem all_valid_around_include {F : Type} (env : Env F) (a b : List Tok) (f v : String)
    (ha : all_valid env a = true) (hb : all_valid env b = true)
    (hia : include_values a = []) (hib : include_values b = [])
    (hout : (output_values a ++ output_values b).length ≤ 1)
    (hst : env.stat v = .dir) :
    all_valid env (a ++ Tok.include_dir f v :: b) = true := by
  simp only [all_valid, Bool.and_eq_true, decide_eq_true_eq] at ha hb ⊢
  refine ⟨⟨?_, ?_⟩, ?_⟩
  · rw [List.all_append, List.all_cons, ha.1.1, hb.1.1]
    simp [Tok.well_formed, hst]
  · simp only [output_values, List.filterMap_append, List.filterMap_cons, Tok.output?] at hout ⊢
    simpa using hout
  · simp only [include_values, List.filterMap_append, List.filterMap_cons,
      Tok.include_dir?] at hia hib ⊢
    rw [hia, hib]
    simp

/-! ## The claims -/

/-- C1: when `cstate_create_from_args` returns, `files` has one entry per
positional token of the command line, each created by the factory from that
token, in the order of the command line; and it is not empty. -/
theorem files_one_per_positional_token {F : Type} (env : Env F) (s0 : cstate F)
    (argv : List String) (m : Machine F)
    (h : cstate_create_from_args env s0 argv.length argv = .returned m) :
    m.s.files.map some = (positional_tokens argv.tail).map env.create_new_fstate ∧
    m.s.files.length = (positional_tokens argv.tail).length ∧
    create_calls m.log = positional_tokens argv.tail ∧
    m.s.files ≠ [] := by
  obtain ⟨_, first, rest, hpos, hfiles, _, _, _, _, _, _, _, hlog⟩ :=
    returned_spec env s0 argv m h
  have hlen : m.s.files.length = (positional_tokens argv.tail).length := by
    have := congrArg List.length hfiles
    simpa using this
  refine ⟨hfiles, hlen, ?_, ?_⟩
  · rw [hlog, create_calls_append, create_calls_append, (calls_map_stat _).2.2.2,
      (calls_map_create _).2.2.2]
    split <;> simp [create_calls]
  · intro hnil
    rw [hnil, hpos] at hlen
    simp at hlen

theorem files_one_per_positional_token_witness :
    cstate_create_from_args sampleEnv zeroState 5 ["prog", "a.sc", "-o", "b.sc", "c.sc"] =
      .returned
        { s := { zeroState with
                  options := { zeroState.options with output := true }
                  output_filepath := some "b.sc", include_dir := some ".",
                  files := ["a.sc", "c.sc"] }
          filenames := []
          log := [.create_fstate "a.sc", .create_fstate "c.sc"] } ∧
    positional_tokens ["a.sc", "-o", "b.sc", "c.sc"] = ["a.sc", "c.sc"] ∧
    (["a.sc", "c.sc"].map some = ["a.sc", "c.sc"].map sampleEnv.create_new_fstate ∧
      ["a.sc", "c.sc"].length = 2 ∧
      create_calls [.create_fstate "a.sc", .create_fstate "c.sc"] = ["a.sc", "c.sc"] ∧
      ["a.sc", "c.sc"] ≠ []) :=
  ⟨by decide, by decide,
    files_one_per_positional_token sampleEnv zeroState
      ["prog", "a.sc", "-o", "b.sc", "c.sc"]
      { s := { zeroState with
                options := { zeroState.options with output := true }
                output_filepath := some "b.sc", include_dir := some ".",
                files := ["a.sc", "c.sc"] }
        filenames := []
        log := [.create_fstate "a.sc", .create_fstate "c.sc"] } (by decide)⟩

/-- C2: for `prog -v -o build/out -i D a.sc b.sc`, with `D` a directory and
the factory yielding states for `a.sc` and `b.sc`, resolution returns with
`verbose` set, the output path `build/out`, the include directory `D` and the
two states in order. And for every returned configuration, an output flag
read in flag position gives the output path its value, an include-directory
flag gives the include directory its value, and a verbose flag sets
`verbose`, wherever they stand among the tokens. -/
theorem flags_give_their_values {F : Type} (env : Env F) (s0 : cstate F) :
    (∀ (D : String) (fa fb : F), env.stat D = .dir →
      env.create_new_fstate "a.sc" = some fa → env.create_new_fstate "b.sc" = some fb →
      ∃ m, cstate_create_from_args env s0 8
          ["prog", "-v", "-o", "build/out", "-i", D, "a.sc", "b.sc"] = .returned m ∧
        m.s.options.verbose = true ∧ m.s.output_filepath = some "build/out" ∧
        m.s.include_dir = some D ∧ m.s.files = [fa, fb]) ∧
    (∀ (argv : List String) (m : Machine F),
      cstate_create_from_args env s0 argv.length argv = .returned m →
      (∀ f V, Tok.output f V ∈ tokens argv.tail → m.s.output_filepath = some V) ∧
      (∀ f D, Tok.include_dir f D ∈ tokens argv.tail → m.s.include_dir = some D) ∧
      (∀ f, Tok.verbose f ∈ tokens argv.tail → m.s.options.verbose = true)) := by
  constructor
  · intro D fa fb hD ha hb
    have hlen : (8 : Nat) = ["prog", "-v", "-o", "build/out", "-i", D, "a.sc", "b.sc"].length :=
      rfl
    have htok : tokens ["-v", "-o", "build/out", "-i", D, "a.sc", "b.sc"] =
        [.verbose "-v", .output "-o" "build/out", .include_dir "-i" D, .positional "a.sc",
          .positional "b.sc"] := by
      simp [tokens, is_verbose_flag, is_output_flag, is_include_flag, begins_with_dash]
    rw [hlen, create_from_args_eq, htok]
    simp [run_tokens, apply_tok, start_machine, hD, after_scan, default_include_dir,
      resolve_output, create_files, ha, hb, Machine.emit]
  · intro argv m h
    obtain ⟨hval, first, rest, _, _, hdir, hout, _, hverb, _, _, _, _⟩ :=
      returned_spec env s0 argv m h
    simp only [all_valid, Bool.and_eq_true, decide_eq_true_eq] at hval
    refine ⟨?_, ?_, ?_⟩
    · intro f V hmem
      have := eq_singleton_of_mem (mem_output_values hmem) hval.1.2
      rw [hout, this]
      simp
    · intro f D hmem
      have := eq_singleton_of_mem (mem_include_values hmem) hval.2
      rw [hdir, this]
      simp
    · intro f hmem
      rw [hverb]
      have : (tokens argv.tail).any Tok.is_verbose = true :=
        List.any_eq_true.mpr ⟨_, hmem, rfl⟩
      simp [this]

theorem flags_give_their_values_witness :
    (∃ m, cstate_create_from_args sampleEnv zeroState 8
        ["prog", "-v", "-o", "build/out", "-i", "inc", "a.sc", "b.sc"] = .returned m ∧
      m.s.options.verbose = true ∧ m.s.output_filepath = some "build/out" ∧
      m.s.include_dir = some "inc" ∧ m.s.files = ["a.sc", "b.sc"]) ∧
    cstate_create_from_args sampleEnv zeroState 6
        ["prog", "a.sc", "--include_dir", "inc", "--output", "x"] =
      .returned
        { s := { options := { verbose := false, output := true, include_dir_specified := true }
                 output_filepath := some "x", include_dir := some "inc", error_count := 0
                 files := ["a.sc"] }
          filenames := []
          log := [.stat "inc", .create_fstate "a.sc"] } ∧
    Tok.output "--output" "x" ∈ tokens ["a.sc", "--include_dir", "inc", "--output", "x"] ∧
    some "x" = some "x" :=
  ⟨(flags_give_their_values sampleEnv zeroState).1 "inc" "a.sc" "b.sc" (by decide) (by decide)
      (by decide),
    by decide, by decide,
    ((flags_give_their_values sampleEnv zeroState).2
      ["prog", "a.sc", "--include_dir", "inc", "--output", "x"]
      { s := { options := { verbose := false, output := true, include_dir_specified := true }
               output_filepath := some "x", include_dir := some "inc", error_count := 0
               files := ["a.sc"] }
        filenames := []
        log := [.stat "inc", .create_fstate "a.sc"] } (by decide)).1 "--output" "x"
      (by decide)⟩

/-- C3, evaluated where it fails: for `prog main.sc`, with the name derived
and the state created, the output path is the derived name, the include
directory is `.` and there is one file, but `verbose` is what the allocated
block held: the code never assigns it unless a verbose flag is read (see
`single_file_resolved` for every environment and every block). -/
theorem verbose_keeps_allocated_value :
    cstate_create_from_args sampleEnv dirtyState 2 ["prog", "main.sc"] =
      .returned
        { s := { options := { verbose := true, output := true, include_dir_specified := true }
                 output_filepath := some "main", include_dir := some ".", error_count := 0
                 files := ["main.sc"] }
          filenames := []
          log := [.extract_name "main.sc", .create_fstate "main.sc"] } ∧
    dirtyState.options.verbose = true ∧
    tokens ["main.sc"] = [.positional "main.sc"] := by
  decide

/-- C8: in a returned configuration, an include-directory flag read in flag
position gives `include_dir` its value, which `stat` was called on (once, and
on nothing else) and reported as a directory; without such a flag
`include_dir` is `.` and `stat` was not called. Either way it is set. -/
theorem include_dir_checked_or_default {F : Type} (env : Env F) (s0 : cstate F)
    (argv : List String) (m : Machine F)
    (h : cstate_create_from_args env s0 argv.length argv = .returned m) :
    (∀ f D, Tok.include_dir f D ∈ tokens argv.tail →
      m.s.include_dir = some D ∧ env.stat D = .dir ∧ stat_calls m.log = [D]) ∧
    ((∀ f D, Tok.include_dir f D ∉ tokens argv.tail) →
      m.s.include_dir = some "." ∧ stat_calls m.log = []) ∧
    m.s.include_dir ≠ none := by
  obtain ⟨hval, first, rest, _, _, hdir, _, _, _, _, _, _, hlog⟩ :=
    returned_spec env s0 argv m h
  have hstat : stat_calls m.log = include_values (tokens argv.tail) := by
    rw [hlog, stat_calls_append, stat_calls_append, (calls_map_stat _).2.1,
      (calls_map_create _).2.1]
    split <;> simp [stat_calls]
  simp only [all_valid, Bool.and_eq_true, decide_eq_true_eq, List.all_eq_true] at hval
  refine ⟨?_, ?_, ?_⟩
  · intro f D hmem
    have := eq_singleton_of_mem (mem_include_values hmem) hval.2
    refine ⟨?_, ?_, ?_⟩
    · rw [hdir, this]; simp
    · simpa [Tok.well_formed] using hval.1.1 _ hmem
    · rw [hstat, this]
  · intro hno
    have hnil : include_values (tokens argv.tail) = [] := by
      cases hv : include_values (tokens argv.tail) with
      | nil => rfl
      | cons v vs =>
        have hv_mem : v ∈ include_values (tokens argv.tail) := by rw [hv]; simp
        obtain ⟨f, hf⟩ := of_mem_include_values hv_mem
        exact absurd hf (hno f v)
    refine ⟨?_, ?_⟩
    · rw [hdir, hnil]; simp
    · rw [hstat, hnil]
  · rw [hdir]; simp

theorem include_dir_checked_or_default_witness :
    cstate_create_from_args sampleEnv zeroState 4 ["prog", "a.sc", "-i", "inc"] =
      .returned
        { s := { options := { verbose := false, output := false, include_dir_specified := true }
                 output_filepath := some "a", include_dir := some "inc", error_count := 0
                 files := ["a.sc"] }
          filenames := []
          log := [.stat "inc", .extract_name "a.sc", .create_fstate "a.sc"] } ∧
    Tok.include_dir "-i" "inc" ∈ tokens ["a.sc", "-i", "inc"] ∧
    (some "inc" = some "inc" ∧ sampleEnv.stat "inc" = .dir ∧
      stat_calls [.stat "inc", .extract_name "a.sc", .create_fstate "a.sc"] = ["inc"]) :=
  ⟨by decide, by decide,
    (include_dir_checked_or_default sampleEnv zeroState ["prog", "a.sc", "-i", "inc"]
      { s := { options := { verbose := false, output := false, include_dir_specified := true }
               output_filepath := some "a", include_dir := some "inc", error_count := 0
               files := ["a.sc"] }
        filenames := []
        log := [.stat "inc", .extract_name "a.sc", .create_fstate "a.sc"] }
      (by decide)).1 "-i" "inc" (by decide)⟩

/-- C10: with no argument after the program name (`argc <= 1`) the run prints
the usage summary (the banner, the usage line and the three options, each
line as written here) to standard output and nothing else, and exits with
status 1; the block is as it was allocated (its error counter untouched), no
diagnostic is reported, and neither `stat` nor the name derivation nor the
factory is called. -/
theorem usage_when_no_arguments {F : Type} (env : Env F) (s0 : cstate F) (argc : Nat)
    (argv : List String) (h : argc ≤ 1) :
    ∃ m, cstate_create_from_args env s0 argc argv = .exited 1 m ∧
      m.s = s0 ∧ m.log = usage_lines.map Event.printf ∧
      m.log =
        [ Event.printf "Simple Compiler - Just as the name suggests\n",
          Event.printf "Usage: sclc [OPTIONS] <filename(s)>\n\n",
          Event.printf "OPTIONS:\n",
          Event.printf
            "--verbose      OR -v \t Print progress messages for various stages.\n",
          Event.printf "--output       OR -o \t Specify output binary filename.\n",
          Event.printf "--include_dir  OR -i \t Specify include directory path.\n" ] ∧
      diagnostics m.log = [] ∧
      stat_calls m.log = [] ∧ extract_calls m.log = [] ∧ create_calls m.log = [] := by
  refine ⟨{ s := s0, filenames := [], log := usage_lines.map Event.printf }, ?_, rfl, rfl,
    ?_, ?_, ?_, ?_, ?_⟩
  · simp [cstate_create_from_args, h]
  all_goals simp [usage_lines, diagnostics, stat_calls, extract_calls, create_calls]

theorem usage_when_no_arguments_witness :
    ∃ m, cstate_create_from_args sampleEnv dirtyState 1 ["prog"] = .exited 1 m ∧
      m.s = dirtyState ∧ m.log = usage_lines.map Event.printf ∧
      m.log =
        [ Event.printf "Simple Compiler - Just as the name suggests\n",
          Event.printf "Usage: sclc [OPTIONS] <filename(s)>\n\n",
          Event.printf "OPTIONS:\n",
          Event.printf
            "--verbose      OR -v \t Print progress messages for various stages.\n",
          Event.printf "--output       OR -o \t Specify output binary filename.\n",
          Event.printf "--include_dir  OR -i \t Specify include directory path.\n" ] ∧
      diagnostics m.log = [] ∧
      stat_calls m.log = [] ∧ extract_calls m.log = [] ∧ create_calls m.log = [] :=
  usage_when_no_arguments sampleEnv dirtyState 1 ["prog"] (by decide)

/-- C4: when the tokens are all valid, none of them is an output flag and
there is a positional token, the name derivation is called exactly once, on
the first positional token; the name it returns is the output path (whether
or not the factory later fails), and when it returns none resolution fails
with "Failed to extract filename". When an output flag with its value was
read, the name derivation is not called, however the run ends. -/
theorem output_name_from_first_positional {F : Type} (env : Env F) (s0 : cstate F)
    (argv : List String) :
    (∀ first rest, all_valid env (tokens argv.tail) = true →
      output_values (tokens argv.tail) = [] → positional_tokens argv.tail = first :: rest →
      ∃ m, (cstate_create_from_args env s0 argv.length argv).machine? = some m ∧
        extract_calls m.log = [first] ∧
        (∀ name, env.scu_extract_name first = some name → m.s.output_filepath = some name) ∧
        (env.scu_extract_name first = none →
          FailsWith (cstate_create_from_args env s0 argv.length argv)
            "Failed to extract filename.\n" [])) ∧
    (output_values (tokens argv.tail) ≠ [] →
      ∀ m, (cstate_create_from_args env s0 argv.length argv).machine? = some m →
        extract_calls m.log = []) := by
  constructor
  · intro first rest hvalid hnone hpos
    obtain ⟨m1, hrun, hov, _, _, hfn, hlog⟩ := all_valid_run env s0 _ hvalid
    rw [hnone] at hov
    have hfn1 : m1.filenames = first :: rest := by rw [hfn]; exact hpos
    have hne : tokens argv.tail ≠ [] := by
      intro hnil
      rw [positional_tokens, hnil] at hpos
      cases hpos
    obtain ⟨prog, a, more, rfl⟩ := argv_of_tokens_ne_nil argv hne
    rw [create_from_args_scanned env s0 _ (by simp) m1 hrun]
    cases hex : env.scu_extract_name first with
    | none =>
      rw [after_scan_no_name env m1 first rest hfn1 hov hex]
      refine ⟨_, rfl, ?_, ?_, ?_⟩
      · simp [scu_perror, Machine.emit, default_include_dir_log, hlog, extract_calls_append,
          (calls_map_stat _).2.2.1, extract_calls]
      · intro name hname; cases hname
      · intro _
        simp [FailsWith, scu_perror, Machine.emit, default_include_dir_log, hlog,
          diagnostics_append, (calls_map_stat _).1, diagnostics]
    | some name =>
      rw [after_scan_derived env m1 first rest name hfn1 hov hex]
      obtain ⟨m2, hm2, hout2, _, _, hext, _⟩ := create_files_frame env (first :: rest)
        { s := { (default_include_dir m1).s with output_filepath := some name, files := [] }
          filenames := first :: rest
          log := m1.log ++ [Event.extract_name first] }
      refine ⟨m2, hm2, ?_, ?_, ?_⟩
      · rw [hext]
        simp [hlog, extract_calls_append, (calls_map_stat _).2.2.1, extract_calls]
      · intro name2 hname2
        rw [hout2]
        simp only [Option.some.injEq] at hname2
        rw [hname2]
      · intro hc; cases hc
  · intro hgiven m hm
    have hne : tokens argv.tail ≠ [] := by
      intro hnil
      rw [hnil] at hgiven
      exact hgiven rfl
    obtain ⟨prog, a, more, rfl⟩ := argv_of_tokens_ne_nil argv hne
    cases hr : run_tokens env (tokens (prog :: a :: more).tail) (start_machine s0) with
    | inl m1 =>
      obtain ⟨_, _, hov, _, _, _, _, _, _, _, _, hlog⟩ := run_tokens_inl env _ _ _ hr
      simp only [start_machine, Option.toList, List.nil_append] at hov hlog
      have hout : m1.s.output_filepath ≠ none := by
        rw [hov]
        cases hv : output_values (tokens (prog :: a :: more).tail) with
        | nil => exact absurd hv hgiven
        | cons x xs => simp
      have hm1 : extract_calls m1.log = [] := by rw [hlog, (calls_map_stat _).2.2.1]
      rw [create_from_args_scanned env s0 _ (by simp) m1 hr] at hm
      cases hfn : m1.filenames with
      | nil =>
        rw [after_scan_no_files env m1 hfn] at hm
        simp only [Outcome.machine?, Option.some.injEq] at hm
        rw [← hm]
        simp [scu_perror, default_include_dir_log, extract_calls_append, hm1, extract_calls]
      | cons first rest =>
        rw [after_scan_given env m1 first rest hfn hout] at hm
        obtain ⟨m2, hm2, _, _, _, hext, _⟩ := create_files_frame env (first :: rest)
          { s := { (default_include_dir m1).s with files := [] }
            filenames := first :: rest
            log := m1.log }
        rw [hm2] at hm
        simp only [Option.some.injEq] at hm
        rw [← hm, hext]
        exact hm1
    | inr o =>
      obtain ⟨pre, t, post, m1, hsplit, hpre, hstop⟩ := run_tokens_inr_split env _ _ _ hr
      obtain ⟨_, _, _, _, _, _, _, _, _, _, _, hlog⟩ := run_tokens_inl env _ _ _ hpre
      simp only [start_machine, List.nil_append] at hlog
      rw [create_from_args_stops env s0 _ pre t post m1 o hsplit hpre hstop] at hm
      obtain ⟨fmt, args, calls, ho, _⟩ := apply_tok_inr env m1 t o hstop
      rw [ho] at hm
      simp only [Outcome.machine?, Option.some.injEq] at hm
      rw [← hm]
      simp [hlog, extract_calls_append, (calls_map_stat _).2.2.1, extract_calls]

theorem output_name_from_first_positional_witness :
    (∃ m, (cstate_create_from_args sampleEnv zeroState 4
          ["prog", "-v", "lib/x.sc", "y.sc"]).machine? = some m ∧
        extract_calls m.log = ["lib/x.sc"] ∧
        (∀ name, sampleEnv.scu_extract_name "lib/x.sc" = some name →
          m.s.output_filepath = some name) ∧
        (sampleEnv.scu_extract_name "lib/x.sc" = none →
          FailsWith (cstate_create_from_args sampleEnv zeroState 4
            ["prog", "-v", "lib/x.sc", "y.sc"]) "Failed to extract filename.\n" [])) ∧
    FailsWith (cstate_create_from_args sampleEnv zeroState 3 ["prog", "", "y.sc"])
      "Failed to extract filename.\n" [] ∧
    extract_calls ([.create_fstate "a.sc"] : List Event) = [] :=
  ⟨(output_name_from_first_positional sampleEnv zeroState
      ["prog", "-v", "lib/x.sc", "y.sc"]).1 "lib/x.sc" ["y.sc"] (by decide) (by decide)
      (by decide),
    by decide,
    (output_name_from_first_positional sampleEnv zeroState ["prog", "-o", "out", "a.sc"]).2
      (by decide)
      { s := { options := { verbose := false, output := true, include_dir_specified := false }
               output_filepath := some "out", include_dir := some ".", error_count := 0
               files := ["a.sc"] }
        filenames := []
        log := [.create_fstate "a.sc"] } (by decide)⟩

/-- C5, as it stands, fails: `prog -x` and `prog` have no positional token,
and neither run reports the missing input filename. -/
theorem missing_input_counterexample :
    (positional_tokens (["prog", "-x"] : List String).tail = [] ∧
      cstate_create_from_args sampleEnv zeroState 2 ["prog", "-x"] =
        .exited 1 { s := { zeroState with error_count := 1 }, filenames := []
                    log := [.diagnostic "Unknown option: %s\n" ["-x"]] } ∧
      ¬ FailsWith (cstate_create_from_args sampleEnv zeroState 2 ["prog", "-x"])
        "Missing input filename\n" []) ∧
    (positional_tokens (["prog"] : List String).tail = [] ∧
      ¬ FailsWith (cstate_create_from_args sampleEnv zeroState 1 ["prog"])
        "Missing input filename\n" []) := by
  decide

/-- C5, amended: with at least one argument after the program name, all
tokens valid and no positional token among them, resolution fails with the
diagnostic of the missing input filename. -/
theorem missing_input_when_scan_passes {F : Type} (env : Env F) (s0 : cstate F)
    (argv : List String) (hlen : 2 ≤ argv.length)
    (hvalid : all_valid env (tokens argv.tail) = true)
    (hpos : positional_tokens argv.tail = []) :
    FailsWith (cstate_create_from_args env s0 argv.length argv) "Missing input filename\n" [] := by
  obtain ⟨m1, hrun, _, _, _, hfn, hlog⟩ := all_valid_run env s0 _ hvalid
  rw [create_from_args_scanned env s0 argv hlen m1 hrun]
  have hnil : (default_include_dir m1).filenames = [] := by
    rw [default_include_dir_filenames, hfn]; exact hpos
  simp [after_scan, hnil, FailsWith, scu_perror, diagnostics_append,
    default_include_dir_log, hlog, (calls_map_stat _).1, diagnostics]

theorem missing_input_when_scan_passes_witness :
    FailsWith (cstate_create_from_args sampleEnv zeroState 5 ["prog", "-v", "-o", "x", "-v"])
      "Missing input filename\n" [] :=
  missing_input_when_scan_passes sampleEnv zeroState ["prog", "-v", "-o", "x", "-v"]
    (by decide) (by decide) (by decide)

/-- C6, as it stands, fails: `prog -o -o x.sc` holds two occurrences of `-o`
and is resolved (the second is the value of the first); in
`prog -x -o a -o b` and `prog -o a -o` the run ends on another diagnostic. -/
theorem duplicate_output_counterexample :
    ((["prog", "-o", "-o", "x.sc"].filter (fun t => decide (is_output_flag t))).length = 2 ∧
      cstate_create_from_args sampleEnv zeroState 4 ["prog", "-o", "-o", "x.sc"] =
        .returned
          { s := { options := { verbose := false, output := true, include_dir_specified := false }
                   output_filepath := some "-o", include_dir := some ".", error_count := 0
                   files := ["x.sc"] }
            filenames := []
            log := [.create_fstate "x.sc"] }) ∧
    ((["prog", "-x", "-o", "a", "-o", "b"].filter
        (fun t => decide (is_output_flag t))).length = 2 ∧
      ¬ FailsWith (cstate_create_from_args sampleEnv zeroState 6
          ["prog", "-x", "-o", "a", "-o", "b"]) "Output specified more than once: %s\n" ["b"]) ∧
    ((["prog", "-o", "a", "-o"].filter (fun t => decide (is_output_flag t))).length = 2 ∧
      FailsWith (cstate_create_from_args sampleEnv zeroState 4 ["prog", "-o", "a", "-o"])
        "Missing filename after %s\n" ["-o"]) := by
  decide

/-- C6, amended: when an output flag is read in flag position with a value
after it, every token before it is valid and one of them is an output flag,
resolution fails with the diagnostic of the repeated output, naming the value
of this second flag. -/
theorem duplicate_output_rejected {F : Type} (env : Env F) (s0 : cstate F)
    (argv : List String) (pre : List Tok) (f v : String) (post : List Tok)
    (h : tokens argv.tail = pre ++ Tok.output f v :: post)
    (hpre : all_valid env pre = true) (hdup : output_values pre ≠ []) :
    FailsWith (cstate_create_from_args env s0 argv.length argv)
      "Output specified more than once: %s\n" [v] := by
  refine fails_after_valid env s0 argv pre _ post _ _ h hpre ?_
  intro m1 hov _
  refine ⟨m1, ?_, rfl⟩
  have hne : m1.s.output_filepath ≠ none := by
    rw [hov]
    cases hv : output_values pre with
    | nil => exact absurd hv hdup
    | cons x xs => simp
  simp only [apply_tok, if_pos hne]

theorem duplicate_output_rejected_witness :
    FailsWith (cstate_create_from_args sampleEnv zeroState 7
        ["prog", "a.sc", "--output", "x", "-v", "-o", "y"])
      "Output specified more than once: %s\n" ["y"] :=
  duplicate_output_rejected sampleEnv zeroState
    ["prog", "a.sc", "--output", "x", "-v", "-o", "y"]
    [.positional "a.sc", .output "--output" "x", .verbose "-v"] "-o" "y" []
    (by decide) (by decide) (by decide)

/-- C7, as it stands, fails: in `prog -i inc -i notes.txt` the second flag
names a regular file and in `prog -i inc -i nowhere` a path that does not
exist, and both runs end on the diagnostic of the repeated include directory;
in `prog -x -i notes.txt` the run ends on the unknown option. -/
theorem include_dir_counterexample :
    (sampleEnv.stat "notes.txt" = .not_dir ∧
      FailsWith (cstate_create_from_args sampleEnv zeroState 5
          ["prog", "-i", "inc", "-i", "notes.txt"])
        "Include directory specified more than once: %s\n" ["notes.txt"] ∧
      ¬ FailsWith (cstate_create_from_args sampleEnv zeroState 5
          ["prog", "-i", "inc", "-i", "notes.txt"]) "Path is not a directory: %s\n" ["notes.txt"]) ∧
    (sampleEnv.stat "nowhere" = .missing ∧
      ¬ FailsWith (cstate_create_from_args sampleEnv zeroState 5
          ["prog", "-i", "inc", "-i", "nowhere"])
        "Include directory does not exist: %s\n" ["nowhere"]) ∧
    (FailsWith (cstate_create_from_args sampleEnv zeroState 4 ["prog", "-x", "-i", "notes.txt"])
        "Unknown option: %s\n" ["-x"] ∧
      ¬ FailsWith (cstate_create_from_args sampleEnv zeroState 4
          ["prog", "-x", "-i", "notes.txt"]) "Path is not a directory: %s\n" ["notes.txt"]) := by
  decide

/-- C7, amended: when an include-directory flag is read in flag position with
a value after it, every token before it is valid and none of them is an
include-directory flag, then resolution fails with "is not a directory" if
the value exists and is not a directory, and with "does not exist" if `stat`
fails on it. -/
theorem include_dir_rejected {F : Type} (env : Env F) (s0 : cstate F)
    (argv : List String) (pre : List Tok) (f v : String) (post : List Tok)
    (h : tokens argv.tail = pre ++ Tok.include_dir f v :: post)
    (hpre : all_valid env pre = true) (hfirst : include_values pre = []) :
    (env.stat v = .not_dir →
      FailsWith (cstate_create_from_args env s0 argv.length argv)
        "Path is not a directory: %s\n" [v]) ∧
    (env.stat v = .missing →
      FailsWith (cstate_create_from_args env s0 argv.length argv)
        "Include directory does not exist: %s\n" [v]) := by
  constructor
  · intro hst
    refine fails_after_valid env s0 argv pre _ post _ _ h hpre ?_
    intro m1 _ hiv
    rw [hfirst] at hiv
    refine ⟨m1.emit (Event.stat v), ?_, ?_⟩
    · simp [apply_tok, hiv, hst]
    · simp [Machine.emit, diagnostics_append, diagnostics]
  · intro hst
    refine fails_after_valid env s0 argv pre _ post _ _ h hpre ?_
    intro m1 _ hiv
    rw [hfirst] at hiv
    refine ⟨m1.emit (Event.stat v), ?_, ?_⟩
    · simp [apply_tok, hiv, hst]
    · simp [Machine.emit, diagnostics_append, diagnostics]

theorem include_dir_rejected_witness :
    FailsWith (cstate_create_from_args sampleEnv zeroState 5
        ["prog", "a.sc", "-v", "-i", "notes.txt"]) "Path is not a directory: %s\n" ["notes.txt"] ∧
    FailsWith (cstate_create_from_args sampleEnv zeroState 4
        ["prog", "--include_dir", "nowhere", "a.sc"])
      "Include directory does not exist: %s\n" ["nowhere"] :=
  ⟨(include_dir_rejected sampleEnv zeroState ["prog", "a.sc", "-v", "-i", "notes.txt"]
      [.positional "a.sc", .verbose "-v"] "-i" "notes.txt" [] (by decide) (by decide)
      (by decide)).1 (by decide),
    (include_dir_rejected sampleEnv zeroState ["prog", "--include_dir", "nowhere", "a.sc"]
      [] "--include_dir" "nowhere" [.positional "a.sc"] (by decide) (by decide)
      (by decide)).2 (by decide)⟩

/-- C9: when the arguments before a token are all valid (so that the token is
read in flag position) and the token begins with a dash and is none of the
six flags, resolution fails with the diagnostic of the unknown option, naming
that token. The tokens `-`, `-vv`, `--out`, `-o=x` and `-x` are such tokens:
alone on the command line each is reported as unknown. -/
theorem unknown_option_rejected {F : Type} (env : Env F) (s0 : cstate F) :
    (∀ (prog : String) (pre : List String) (t : String) (post : List String),
      all_valid env (tokens pre) = true → begins_with_dash t = true →
      ¬ is_verbose_flag t → ¬ is_output_flag t → ¬ is_include_flag t →
      FailsWith (cstate_create_from_args env s0 (prog :: (pre ++ t :: post)).length
        (prog :: (pre ++ t :: post))) "Unknown option: %s\n" [t]) ∧
    (∀ t ∈ ["-", "-vv", "--out", "-o=x", "-x"],
      FailsWith (cstate_create_from_args env s0 2 ["prog", t]) "Unknown option: %s\n" [t]) := by
  have gen : ∀ (prog : String) (pre : List String) (t : String) (post : List String),
      all_valid env (tokens pre) = true → begins_with_dash t = true →
      ¬ is_verbose_flag t → ¬ is_output_flag t → ¬ is_include_flag t →
      FailsWith (cstate_create_from_args env s0 (prog :: (pre ++ t :: post)).length
        (prog :: (pre ++ t :: post))) "Unknown option: %s\n" [t] := by
    intro prog pre t post hpre hdash hv ho hi
    have htok : tokens (prog :: (pre ++ t :: post)).tail =
        tokens pre ++ Tok.unknown t :: tokens post := by
      rw [List.tail_cons, tokens_append _ _ (all_valid_no_dangling env _ hpre),
        tokens_unknown t post hdash hv ho hi]
    refine fails_after_valid env s0 _ (tokens pre) _ (tokens post) _ _ htok hpre ?_
    intro m1 _ _
    exact ⟨m1, rfl, rfl⟩
  refine ⟨gen, ?_⟩
  intro t ht
  simp only [List.mem_cons, List.mem_singleton, List.not_mem_nil, or_false] at ht
  rcases ht with rfl | rfl | rfl | rfl | rfl <;>
    exact gen "prog" [] _ [] rfl (by decide) (by decide) (by decide) (by decide)

theorem unknown_option_rejected_witness :
    FailsWith (cstate_create_from_args sampleEnv zeroState 6
        ["prog", "a.sc", "-o", "-x", "-vv", "b.sc"]) "Unknown option: %s\n" ["-vv"] ∧
    FailsWith (cstate_create_from_args sampleEnv zeroState 2 ["prog", "-x"])
      "Unknown option: %s\n" ["-x"] :=
  ⟨(unknown_option_rejected sampleEnv zeroState).1 "prog" ["a.sc", "-o", "-x"] "-vv" ["b.sc"]
      (by decide) (by decide) (by decide) (by decide) (by decide),
    (unknown_option_rejected sampleEnv zeroState).2 "-x" (by decide)⟩

/-- C11, as it stands, fails: `prog -o "" a.sc` is resolved, with the empty
string as output path. -/
theorem output_path_counterexample :
    cstate_create_from_args sampleEnv zeroState 4 ["prog", "-o", "", "a.sc"] =
      .returned
        { s := { options := { verbose := false, output := true, include_dir_specified := false }
                 output_filepath := some "", include_dir := some ".", error_count := 0
                 files := ["a.sc"] }
          filenames := []
          log := [.create_fstate "a.sc"] } ∧
    ("" : String).length = 0 := by
  decide

/-- C11, amended: in a returned configuration the output path is set; it is
the value given with the output flag, whatever that value is, or, when no
output flag was read, the name that the name derivation returned for the
first positional token. -/
theorem output_path_set {F : Type} (env : Env F) (s0 : cstate F) (argv : List String)
    (m : Machine F) (h : cstate_create_from_args env s0 argv.length argv = .returned m) :
    ∃ p, m.s.output_filepath = some p ∧
      (∀ f V, Tok.output f V ∈ tokens argv.tail → p = V) ∧
      ((∀ f V, Tok.output f V ∉ tokens argv.tail) →
        ∃ first rest, positional_tokens argv.tail = first :: rest ∧
          env.scu_extract_name first = some p) := by
  obtain ⟨hval, first, rest, hpos, _, _, hout, hne, _, _, _, _, _⟩ :=
    returned_spec env s0 argv m h
  simp only [all_valid, Bool.and_eq_true, decide_eq_true_eq] at hval
  cases hp : m.s.output_filepath with
  | none => exact absurd hp hne
  | some p =>
    refine ⟨p, rfl, ?_, ?_⟩
    · intro f V hmem
      have hone := eq_singleton_of_mem (mem_output_values hmem) hval.1.2
      rw [hp, hone] at hout
      simpa using hout
    · intro hno
      have hnil : output_values (tokens argv.tail) = [] := by
        cases hv : output_values (tokens argv.tail) with
        | nil => rfl
        | cons v vs =>
          have hv_mem : v ∈ output_values (tokens argv.tail) := by rw [hv]; simp
          obtain ⟨f, hf⟩ := of_mem_output_values hv_mem
          exact absurd hf (hno f v)
      rw [hp, hnil] at hout
      simp only [if_true] at hout
      exact ⟨first, rest, hpos, hout.symm⟩

theorem output_path_set_witness :
    ∃ p, some "b.sc" = some p ∧
      (∀ f V, Tok.output f V ∈ tokens (["prog", "a.sc", "-o", "b.sc", "c.sc"] : List String).tail →
        p = V) ∧
      ((∀ f V, Tok.output f V ∉
          tokens (["prog", "a.sc", "-o", "b.sc", "c.sc"] : List String).tail) →
        ∃ first rest,
          positional_tokens (["prog", "a.sc", "-o", "b.sc", "c.sc"] : List String).tail =
            first :: rest ∧
          sampleEnv.scu_extract_name first = some p) :=
  output_path_set sampleEnv zeroState ["prog", "a.sc", "-o", "b.sc", "c.sc"]
    { s := { zeroState with
              options := { zeroState.options with output := true }
              output_filepath := some "b.sc", include_dir := some ".",
              files := ["a.sc", "c.sc"] }
      filenames := []
      log := [.create_fstate "a.sc", .create_fstate "c.sc"] } (by decide)

/-- C12, evaluated where it fails: for `prog main.sc` no output flag and no
include-directory flag is read, and the returned `options.output` and
`options.include_dir_specified` are what the allocated block held (here
true): the code assigns them only when it reads the flag. -/
theorem explicit_flags_keep_allocated_value :
    output_values (tokens ["main.sc"]) = [] ∧ include_values (tokens ["main.sc"]) = [] ∧
    dirtyState.options.output = true ∧ dirtyState.options.include_dir_specified = true ∧
    ∃ m, cstate_create_from_args sampleEnv dirtyState 2 ["prog", "main.sc"] = .returned m ∧
      m.s.options.output = true ∧ m.s.options.include_dir_specified = true ∧
      m.s.output_filepath = some "main" ∧ m.s.include_dir = some "." :=
  ⟨by decide, by decide, by decide, by decide,
    { s := { options := { verbose := true, output := true, include_dir_specified := true }
             output_filepath := some "main", include_dir := some ".", error_count := 0
             files := ["main.sc"] }
      filenames := []
      log := [.extract_name "main.sc", .create_fstate "main.sc"] },
    by decide, rfl, rfl, rfl, rfl⟩

/-- C13: when the tokens are all valid and the output name is resolved (an
output flag was read, or the name derivation yields a name for the first
positional token), and `bad` is the first positional token for which the
factory yields no state, then resolution fails with the factory's diagnostic
naming `bad`, the factory has been called on the positional tokens up to
`bad`, in order, and on none after it, and nothing is returned. -/
theorem factory_failure_reported {F : Type} (env : Env F) (s0 : cstate F)
    (argv : List String) (pre : List String) (bad : String) (post : List String)
    (hvalid : all_valid env (tokens argv.tail) = true)
    (hpos : positional_tokens argv.tail = pre ++ bad :: post)
    (hname : output_values (tokens argv.tail) = [] →
      ∀ first rest, positional_tokens argv.tail = first :: rest →
        env.scu_extract_name first ≠ none)
    (hpre : ∀ n ∈ pre, env.create_new_fstate n ≠ none)
    (hbad : env.create_new_fstate bad = none) :
    FailsWith (cstate_create_from_args env s0 argv.length argv)
      "Failed to create fstate for: %s\n" [bad] ∧
    (∃ m, cstate_create_from_args env s0 argv.length argv = .exited 1 m ∧
      create_calls m.log = pre ++ [bad]) ∧
    (∀ m, cstate_create_from_args env s0 argv.length argv ≠ .returned m) := by
  obtain ⟨m1, hrun, hov, _, _, hfn, hlog⟩ := all_valid_run env s0 _ hvalid
  have hfn1 : m1.filenames = pre ++ bad :: post := by rw [hfn]; exact hpos
  have hne : tokens argv.tail ≠ [] := by
    intro hnil
    rw [positional_tokens, hnil] at hpos
    cases pre <;> cases hpos
  obtain ⟨prog, a, more, rfl⟩ := argv_of_tokens_ne_nil argv hne
  obtain ⟨first, rest, hfr⟩ : ∃ first rest, pre ++ bad :: post = first :: rest := by
    cases pre with
    | nil => exact ⟨bad, post, rfl⟩
    | cons x xs => exact ⟨x, xs ++ bad :: post, rfl⟩
  have hfn2 : m1.filenames = first :: rest := by rw [hfn1, hfr]
  have main : ∃ m, cstate_create_from_args env s0 (prog :: a :: more).length
        (prog :: a :: more) = .exited 1 m ∧
      m.log = m1.log ++ (if m1.s.output_filepath = none then [Event.extract_name first] else [])
        ++ (pre ++ [bad]).map Event.create_fstate ++
        [Event.diagnostic "Failed to create fstate for: %s\n" [bad]] := by
    rw [create_from_args_scanned env s0 _ (by simp) m1 hrun]
    cases hout : m1.s.output_filepath with
    | none =>
      have hnil : output_values (tokens (prog :: a :: more).tail) = [] := by
        cases hv : output_values (tokens (prog :: a :: more).tail) with
        | nil => rfl
        | cons v vs => rw [hv] at hov; rw [hov] at hout; cases hout
      cases hex : env.scu_extract_name first with
      | none => exact absurd hex (hname hnil first rest (by rw [hpos, hfr]))
      | some name =>
        rw [after_scan_derived env m1 first rest name hfn2 hout hex, ← hfr]
        obtain ⟨m2, hm2, hl2, _⟩ := create_files_fails_at env bad post hbad pre
          { s := { (default_include_dir m1).s with output_filepath := some name, files := [] }
            filenames := pre ++ bad :: post
            log := m1.log ++ [Event.extract_name first] } hpre
        exact ⟨m2, hm2, by rw [hl2]; simp⟩
    | some o =>
      rw [after_scan_given env m1 first rest hfn2 (by rw [hout]; simp), ← hfr]
      obtain ⟨m2, hm2, hl2, _⟩ := create_files_fails_at env bad post hbad pre
        { s := { (default_include_dir m1).s with files := [] }
          filenames := pre ++ bad :: post
          log := m1.log } hpre
      exact ⟨m2, hm2, by rw [hl2]; simp⟩
  obtain ⟨m, hm, hl⟩ := main
  have hdiag : diagnostics m.log =
      [Event.diagnostic "Failed to create fstate for: %s\n" [bad]] := by
    rw [hl, hlog]
    simp only [diagnostics_append, (calls_map_stat _).1, (calls_map_create _).1]
    split <;> simp [diagnostics]
  have hcalls : create_calls m.log = pre ++ [bad] := by
    rw [hl, hlog]
    simp only [create_calls_append, (calls_map_stat _).2.2.2, (calls_map_create _).2.2.2]
    split <;> simp [create_calls]
  refine ⟨?_, ⟨m, hm, hcalls⟩, ?_⟩
  · rw [hm]
    exact ⟨rfl, hdiag⟩
  · intro m2 hret
    rw [hm] at hret
    cases hret

theorem factory_failure_reported_witness :
    FailsWith (cstate_create_from_args sampleEnv zeroState 6
        ["prog", "a.sc", "-v", "bad.sc", "c.sc", "bad.sc"])
      "Failed to create fstate for: %s\n" ["bad.sc"] ∧
    (∃ m, cstate_create_from_args sampleEnv zeroState 6
        ["prog", "a.sc", "-v", "bad.sc", "c.sc", "bad.sc"] = .exited 1 m ∧
      create_calls m.log = ["a.sc"] ++ ["bad.sc"]) ∧
    (∀ m, cstate_create_from_args sampleEnv zeroState 6
        ["prog", "a.sc", "-v", "bad.sc", "c.sc", "bad.sc"] ≠ .returned m) :=
  factory_failure_reported sampleEnv zeroState
    ["prog", "a.sc", "-v", "bad.sc", "c.sc", "bad.sc"] ["a.sc"] "bad.sc" ["c.sc", "bad.sc"]
    (by decide) (by decide)
    (fun _ first rest h => by
      have hf : first = "a.sc" := by
        have h2 : (["a.sc", "bad.sc", "c.sc", "bad.sc"] : List String) = first :: rest := h
        simp only [List.cons.injEq] at h2
        exact h2.1.symm
      rw [hf]
      decide)
    (by decide) (by decide)

/-- C14: with at least one argument after the program name, either the
function returns, no diagnostic was reported and `error_count` is 0, or the
process exits with status 1, exactly one diagnostic was reported and
`error_count` is 1; in no case is `error_count` above 1. -/
theorem one_diagnostic_or_none {F : Type} (env : Env F) (s0 : cstate F)
    (argv : List String) (hlen : 2 ≤ argv.length) :
    ((∃ m, cstate_create_from_args env s0 argv.length argv = .returned m ∧
        diagnostics m.log = [] ∧ m.s.error_count = 0) ∨
      (∃ m fmt args, cstate_create_from_args env s0 argv.length argv = .exited 1 m ∧
        diagnostics m.log = [Event.diagnostic fmt args] ∧ m.s.error_count = 1)) ∧
    (∀ m, (cstate_create_from_args env s0 argv.length argv).machine? = some m →
      m.s.error_count ≤ 1) := by
  have hcases : (∃ m, cstate_create_from_args env s0 argv.length argv = .returned m ∧
        diagnostics m.log = [] ∧ m.s.error_count = 0) ∨
      (∃ m fmt args, cstate_create_from_args env s0 argv.length argv = .exited 1 m ∧
        diagnostics m.log = [Event.diagnostic fmt args] ∧ m.s.error_count = 1) := by
    rcases create_from_args_total env s0 argv with ⟨m, hm⟩ | ⟨m, hm⟩
    · left
      obtain ⟨_, first, rest, _, _, _, _, _, _, _, _, hec, hlog⟩ := returned_spec env s0 argv m hm
      refine ⟨m, hm, ?_, hec⟩
      rw [hlog]
      simp only [diagnostics_append, (calls_map_stat _).1, (calls_map_create _).1]
      split <;> simp [diagnostics]
    · right
      obtain ⟨_, hec, fmt, args, hd, _⟩ := exited_spec env s0 argv hlen 1 m hm
      exact ⟨m, fmt, args, hm, hd, hec⟩
  refine ⟨hcases, ?_⟩
  intro m hm
  rcases hcases with ⟨m1, h1, _, hec⟩ | ⟨m1, _, _, h1, _, hec⟩
  · rw [h1] at hm
    simp only [Outcome.machine?, Option.some.injEq] at hm
    rw [← hm, hec]
    decide
  · rw [h1] at hm
    simp only [Outcome.machine?, Option.some.injEq] at hm
    rw [← hm, hec]

theorem one_diagnostic_or_none_witness :
    ((∃ m, cstate_create_from_args sampleEnv dirtyState 3 ["prog", "-v", "-q"] = .returned m ∧
        diagnostics m.log = [] ∧ m.s.error_count = 0) ∨
      (∃ m fmt args, cstate_create_from_args sampleEnv dirtyState 3 ["prog", "-v", "-q"] =
          .exited 1 m ∧
        diagnostics m.log = [Event.diagnostic fmt args] ∧ m.s.error_count = 1)) ∧
    (∀ m, (cstate_create_from_args sampleEnv dirtyState 3 ["prog", "-v", "-q"]).machine? =
        some m → m.s.error_count ≤ 1) :=
  one_diagnostic_or_none sampleEnv dirtyState ["prog", "-v", "-q"] (by decide)

/-- C19: a run that exits on a diagnostic of the scan, on the missing input
filename or on the failed name derivation has not called the factory; and
when some token is not valid, the run exits on a diagnostic of the scan,
which is neither the missing input filename nor the failed name derivation,
having called neither the name derivation nor the factory. -/
theorem validation_before_files {F : Type} (env : Env F) (s0 : cstate F)
    (argv : List String) :
    (∀ st m fmt args, cstate_create_from_args env s0 argv.length argv = .exited st m →
      diagnostics m.log = [Event.diagnostic fmt args] →
      fmt ∈ scan_formats ++ ["Missing input filename\n", "Failed to extract filename.\n"] →
      create_calls m.log = []) ∧
    (all_valid env (tokens argv.tail) = false →
      ∃ m fmt args, cstate_create_from_args env s0 argv.length argv = .exited 1 m ∧
        diagnostics m.log = [Event.diagnostic fmt args] ∧ fmt ∈ scan_formats ∧
        fmt ≠ "Missing input filename\n" ∧ fmt ≠ "Failed to extract filename.\n" ∧
        create_calls m.log = [] ∧ extract_calls m.log = []) := by
  constructor
  · intro st m fmt args h hd hfmt
    have hne : fmt ≠ "Failed to create fstate for: %s\n" := by
      intro heq
      subst heq
      revert hfmt
      decide
    rcases Nat.lt_or_ge argv.length 2 with hlt | hge
    · have hle : argv.length ≤ 1 := by omega
      simp only [cstate_create_from_args, if_pos hle, Outcome.exited.injEq] at h
      rw [← h.2] at hd
      simp [usage_lines, diagnostics] at hd
    · obtain ⟨_, _, fmt2, args2, hd2, hc⟩ := exited_spec env s0 argv hge st m h
      rw [hd] at hd2
      simp only [List.cons.injEq, Event.diagnostic.injEq, and_true] at hd2
      exact hc (by rw [← hd2.1]; exact hne)
  · intro hbad
    have hne : tokens argv.tail ≠ [] := by
      intro hnil
      rw [hnil] at hbad
      cases hbad
    obtain ⟨prog, a, more, rfl⟩ := argv_of_tokens_ne_nil argv hne
    rw [create_from_args_eq]
    rw [List.tail_cons] at hbad
    cases hr : run_tokens env (tokens (a :: more)) (start_machine s0) with
    | inl m1 =>
      have := all_valid_of_run env s0 _ m1 hr
      rw [this] at hbad
      cases hbad
    | inr o =>
      obtain ⟨m, fmt, args, ho, _, hd, hfmt, hc, hx⟩ := scan_stops_spec env s0 _ o hr
      refine ⟨m, fmt, args, ho, hd, hfmt, ?_, ?_, hc, hx⟩
      · intro heq; subst heq; revert hfmt; decide
      · intro heq; subst heq; revert hfmt; decide

theorem validation_before_files_witness :
    (∃ m, cstate_create_from_args sampleEnv zeroState 5
        ["prog", "a.sc", "b.sc", "-i", "nowhere"] = .exited 1 m ∧
      create_calls m.log = []) ∧
    (∃ m fmt args, cstate_create_from_args sampleEnv zeroState 4
        ["prog", "", "b.sc", "-x"] = .exited 1 m ∧
      diagnostics m.log = [Event.diagnostic fmt args] ∧ fmt ∈ scan_formats ∧
      fmt ≠ "Missing input filename\n" ∧ fmt ≠ "Failed to extract filename.\n" ∧
      create_calls m.log = [] ∧ extract_calls m.log = []) :=
  ⟨⟨{ s := { zeroState with error_count := 1 }
      filenames := ["a.sc", "b.sc"]
      log := [.stat "nowhere",
        .diagnostic "Include directory does not exist: %s\n" ["nowhere"]] },
      by decide,
      (validation_before_files sampleEnv zeroState
        ["prog", "a.sc", "b.sc", "-i", "nowhere"]).1 1 _
        "Include directory does not exist: %s\n" ["nowhere"] (by decide) (by decide)
        (by decide)⟩,
    (validation_before_files sampleEnv zeroState ["prog", "", "b.sc", "-x"]).2 (by decide)⟩

/-- C16: at a cursor below `argc` the loop body reads `argv` inside its
bounds and either ends the run with an exit, or moves the cursor by exactly 1
(verbose flag, positional token) or by exactly 2 (output or include-directory
flag, whose value is then at an index below `argc`), never past `argc`; and
the loop, started at any cursor up to `argc` with `argc` units of fuel, ends:
with the cursor on `argc`, or in an exit with status 1. -/
theorem scan_cursor_advances {F : Type} (env : Env F) (argv : List String) :
    (∀ (i : Nat) (m : Machine F), i < argv.length →
      ∃ arg, argv[i]? = some arg ∧
        match scan_step env argv.length argv i m with
        | .next j _ =>
          j ≤ argv.length ∧
          ((is_verbose_flag arg ∨
              (¬ is_output_flag arg ∧ ¬ is_include_flag arg ∧ begins_with_dash arg = false)) ∧
              j = i + 1 ∨
            (is_output_flag arg ∨ is_include_flag arg) ∧ i + 1 < argv.length ∧ j = i + 2)
        | .halt o => ∃ m1, o = .exited 1 m1) ∧
    (∀ (i : Nat) (m : Machine F), i ≤ argv.length →
      (∃ m1, scan_loop env argv.length argv argv.length i m = .inl (argv.length, m1)) ∨
        (∃ m1, scan_loop env argv.length argv argv.length i m = .inr (.exited 1 m1))) := by
  constructor
  · intro i m hi
    have hget : argv[i]? = some argv[i] := List.getElem?_eq_getElem hi
    refine ⟨argv[i], hget, ?_⟩
    generalize argv[i] = arg at hget
    unfold scan_step
    simp only [hget]
    by_cases hv : arg = "--verbose" ∨ arg = "-v"
    · simp only [if_pos hv]
      exact ⟨by omega, Or.inl ⟨Or.inl hv, trivial⟩⟩
    simp only [if_neg hv]
    by_cases ho : arg = "--output" ∨ arg = "-o"
    · simp only [if_pos ho]
      by_cases h1 : i + 1 ≥ argv.length
      · simp only [if_pos h1]
        exact ⟨_, rfl⟩
      · have hlt : i + 1 < argv.length := by omega
        have hget1 : argv[i + 1]? = some argv[i + 1] := List.getElem?_eq_getElem hlt
        simp only [if_neg h1, hget1]
        by_cases hd : m.s.output_filepath ≠ none
        · simp only [if_pos hd]
          exact ⟨_, rfl⟩
        · simp only [if_neg hd]
          exact ⟨by omega, Or.inr ⟨Or.inl ho, hlt, trivial⟩⟩
    simp only [if_neg ho]
    by_cases hc : arg = "--include_dir" ∨ arg = "-i"
    · simp only [if_pos hc]
      by_cases h1 : i + 1 ≥ argv.length
      · simp only [if_pos h1]
        exact ⟨_, rfl⟩
      · have hlt : i + 1 < argv.length := by omega
        have hget1 : argv[i + 1]? = some argv[i + 1] := List.getElem?_eq_getElem hlt
        simp only [if_neg h1, hget1]
        by_cases hd : m.s.include_dir ≠ none
        · simp only [if_pos hd]
          exact ⟨_, rfl⟩
        · simp only [if_neg hd]
          cases env.stat argv[i + 1]
          · exact ⟨_, rfl⟩
          · exact ⟨_, rfl⟩
          · exact ⟨by omega, Or.inr ⟨Or.inr hc, hlt, rfl⟩⟩
    simp only [if_neg hc]
    by_cases hb : begins_with_dash arg = true
    · simp only [not_dash_first_eq, hb, Bool.not_true, Bool.false_eq_true, if_false]
      exact ⟨_, rfl⟩
    · simp only [Bool.not_eq_true] at hb
      simp only [not_dash_first_eq, hb, Bool.not_false, if_true]
      exact ⟨by omega, Or.inl ⟨Or.inr ⟨ho, hc, trivial⟩, trivial⟩⟩
  · intro i m hi
    rw [scan_loop_eq env argv argv.length i m hi (by omega)]
    cases hr : run_tokens env (tokens (argv.drop i)) m with
    | inl m1 => exact Or.inl ⟨m1, rfl⟩
    | inr o =>
      obtain ⟨m1, hm1⟩ := run_tokens_inr env _ _ _ hr
      exact Or.inr ⟨m1, by rw [hm1]; rfl⟩

theorem scan_cursor_advances_witness :
    (∃ arg, (["prog", "-o", "x", "a.sc"] : List String)[1]? = some arg ∧
      match scan_step sampleEnv (["prog", "-o", "x", "a.sc"] : List String).length
        ["prog", "-o", "x", "a.sc"] 1 (start_machine zeroState) with
      | .next j _ =>
        j ≤ (["prog", "-o", "x", "a.sc"] : List String).length ∧
        ((is_verbose_flag arg ∨
            (¬ is_output_flag arg ∧ ¬ is_include_flag arg ∧ begins_with_dash arg = false)) ∧
            j = 1 + 1 ∨
          (is_output_flag arg ∨ is_include_flag arg) ∧
            1 + 1 < (["prog", "-o", "x", "a.sc"] : List String).length ∧ j = 1 + 2)
      | .halt o => ∃ m1, o = .exited 1 m1) ∧
    ((∃ m1, scan_loop sampleEnv (["prog", "-o", "x", "a.sc"] : List String).length
          ["prog", "-o", "x", "a.sc"] (["prog", "-o", "x", "a.sc"] : List String).length 1
          (start_machine zeroState) =
        .inl ((["prog", "-o", "x", "a.sc"] : List String).length, m1)) ∨
      (∃ m1, scan_loop sampleEnv (["prog", "-o", "x", "a.sc"] : List String).length
          ["prog", "-o", "x", "a.sc"] (["prog", "-o", "x", "a.sc"] : List String).length 1
          (start_machine zeroState) = .inr (.exited 1 m1))) ∧
    scan_step sampleEnv 4 ["prog", "-o", "x", "a.sc"] 1 (start_machine zeroState) =
      .next 3
        { s := { zeroState with
                  options := { zeroState.options with output := true }
                  output_filepath := some "x" }
          filenames := []
          log := [] } :=
  ⟨(scan_cursor_advances sampleEnv ["prog", "-o", "x", "a.sc"]).1 1 (start_machine zeroState)
      (by decide),
    (scan_cursor_advances sampleEnv ["prog", "-o", "x", "a.sc"]).2 1 (start_machine zeroState)
      (by decide),
    by decide⟩

/-- C17: after arguments that end at a token boundary, an output flag (an
include-directory flag) and the token after it are read as one token, whatever
that token is; in a returned configuration that token is the output path (the
include directory), it is not among the files the factory was called on, and
it sets `verbose` no more than the other tokens do. For `prog -o -v a.sc`,
with a state for `a.sc`, resolution returns with the output path `-v`,
`verbose` as it was allocated and one file; for `prog -o a.sc` it fails with
the diagnostic of the missing input filename. In the code itself: the loop
body at an output flag (an include-directory flag) followed by a token takes
that token, whatever its spelling, as the value (for the include directory,
gives it to `stat`) and moves the cursor past it; after valid arguments with
no include directory yet, a value on which `stat` fails or which is no
directory is reported under its own text; and when the arguments around the
flag are valid and resolvable, resolution returns with that token as the
output path (the include directory, if it is a directory), never as a file.
For `prog -i -v a.sc`, with `-v` a directory, resolution returns with the
include directory `-v` and `verbose` as allocated; for `prog -i a.sc`, with
`a.sc` a directory, it fails with the diagnostic of the missing input
filename. -/
theorem flag_value_consumed_verbatim {F : Type} (env : Env F) (s0 : cstate F) :
    (∀ (pre : List String) (f v : String) (post : List String),
      (∀ d, Tok.dangling d ∉ tokens pre) →
      (is_output_flag f →
        tokens (pre ++ f :: v :: post) = tokens pre ++ Tok.output f v :: tokens post) ∧
      (is_include_flag f →
        tokens (pre ++ f :: v :: post) = tokens pre ++ Tok.include_dir f v :: tokens post)) ∧
    (∀ (prog : String) (pre : List String) (f v : String) (post : List String)
      (m : Machine F), (∀ d, Tok.dangling d ∉ tokens pre) →
      cstate_create_from_args env s0 (prog :: (pre ++ f :: v :: post)).length
        (prog :: (pre ++ f :: v :: post)) = .returned m →
      (is_output_flag f → m.s.output_filepath = some v) ∧
      (is_include_flag f → m.s.include_dir = some v) ∧
      (is_output_flag f ∨ is_include_flag f →
        create_calls m.log = positional_tokens pre ++ positional_tokens post ∧
        m.s.options.verbose =
          (s0.options.verbose || (tokens pre).any Tok.is_verbose ||
            (tokens post).any Tok.is_verbose))) ∧
    (∀ fa, env.create_new_fstate "a.sc" = some fa →
      ∃ m, cstate_create_from_args env s0 4 ["prog", "-o", "-v", "a.sc"] = .returned m ∧
        m.s.output_filepath = some "-v" ∧ m.s.options.verbose = s0.options.verbose ∧
        m.s.files = [fa]) ∧
    FailsWith (cstate_create_from_args env s0 3 ["prog", "-o", "a.sc"])
      "Missing input filename\n" [] ∧
    (∀ (argv : List String) (i : Nat) (m : Machine F) (f v : String),
      argv[i]? = some f → argv[i + 1]? = some v → is_output_flag f →
      scan_step env argv.length argv i m =
        if m.s.output_filepath ≠ none then
          .halt (.exited 1 (scu_perror m "Output specified more than once: %s\n" [v]))
        else
          .next (i + 2)
            { m with s := { m.s with
                output_filepath := some v
                options := { m.s.options with output := true } } }) ∧
    (∀ (argv : List String) (i : Nat) (m : Machine F) (f v : String),
      argv[i]? = some f → argv[i + 1]? = some v → is_include_flag f →
      scan_step env argv.length argv i m =
        if m.s.include_dir ≠ none then
          .halt (.exited 1
            (scu_perror m "Include directory specified more than once: %s\n" [v]))
        else
          match env.stat v with
          | .missing =>
            .halt (.exited 1 (scu_perror (m.emit (Event.stat v))
              "Include directory does not exist: %s\n" [v]))
          | .not_dir =>
            .halt (.exited 1 (scu_perror (m.emit (Event.stat v))
              "Path is not a directory: %s\n" [v]))
          | .dir =>
            .next (i + 2)
              { m with
                s := { m.s with
                  include_dir := some v
                  options := { m.s.options with include_dir_specified := true } }
                log := m.log ++ [Event.stat v] }) ∧
    (∀ (prog : String) (pre : List String) (f v : String) (post : List String),
      all_valid env (tokens pre) = true → include_values (tokens pre) = [] →
      is_include_flag f →
      (env.stat v = .missing →
        FailsWith (cstate_create_from_args env s0 (prog :: (pre ++ f :: v :: post)).length
          (prog :: (pre ++ f :: v :: post))) "Include directory does not exist: %s\n" [v]) ∧
      (env.stat v = .not_dir →
        FailsWith (cstate_create_from_args env s0 (prog :: (pre ++ f :: v :: post)).length
          (prog :: (pre ++ f :: v :: post))) "Path is not a directory: %s\n" [v])) ∧
    (∀ (prog : String) (pre : List String) (f v : String) (post : List String)
      (first : String) (rest : List String),
      all_valid env (tokens pre) = true → all_valid env (tokens post) = true →
      positional_tokens pre ++ positional_tokens post = first :: rest →
      (∀ n ∈ positional_tokens pre ++ positional_tokens post,
        env.create_new_fstate n ≠ none) →
      (is_output_flag f →
        output_values (tokens pre) = [] → output_values (tokens post) = [] →
        (include_values (tokens pre) ++ include_values (tokens post)).length ≤ 1 →
        ∃ m, cstate_create_from_args env s0 (prog :: (pre ++ f :: v :: post)).length
            (prog :: (pre ++ f :: v :: post)) = .returned m ∧
          m.s.output_filepath = some v ∧
          create_calls m.log = positional_tokens pre ++ positional_tokens post) ∧
      (is_include_flag f →
        include_values (tokens pre) = [] → include_values (tokens post) = [] →
        (output_values (tokens pre) ++ output_values (tokens post)).length ≤ 1 →
        env.stat v = .dir →
        (output_values (tokens pre) ++ output_values (tokens post) = [] →
          env.scu_extract_name first ≠ none) →
        ∃ m, cstate_create_from_args env s0 (prog :: (pre ++ f :: v :: post)).length
            (prog :: (pre ++ f :: v :: post)) = .returned m ∧
          m.s.include_dir = some v ∧
          create_calls m.log = positional_tokens pre ++ positional_tokens post)) ∧
    (∀ fa name, env.stat "-v" = .dir → env.scu_extract_name "a.sc" = some name →
      env.create_new_fstate "a.sc" = some fa →
      ∃ m, cstate_create_from_args env s0 4 ["prog", "-i", "-v", "a.sc"] = .returned m ∧
        m.s.include_dir = some "-v" ∧ m.s.options.verbose = s0.options.verbose ∧
        m.s.output_filepath = some name ∧ m.s.files = [fa]) ∧
    (env.stat "a.sc" = .dir →
      FailsWith (cstate_create_from_args env s0 3 ["prog", "-i", "a.sc"])
        "Missing input filename\n" []) := by
  have part1 : ∀ (pre : List String) (f v : String) (post : List String),
      (∀ d, Tok.dangling d ∉ tokens pre) →
      (is_output_flag f →
        tokens (pre ++ f :: v :: post) = tokens pre ++ Tok.output f v :: tokens post) ∧
      (is_include_flag f →
        tokens (pre ++ f :: v :: post) = tokens pre ++ Tok.include_dir f v :: tokens post) := by
    intro pre f v post hpre
    constructor
    · intro hf
      rw [tokens_append _ _ hpre, tokens_output f v post hf]
    · intro hf
      rw [tokens_append _ _ hpre, tokens_include f v post hf]
  have part2 : ∀ (prog : String) (pre : List String) (f v : String) (post : List String)
      (m : Machine F), (∀ d, Tok.dangling d ∉ tokens pre) →
      cstate_create_from_args env s0 (prog :: (pre ++ f :: v :: post)).length
        (prog :: (pre ++ f :: v :: post)) = .returned m →
      (is_output_flag f → m.s.output_filepath = some v) ∧
      (is_include_flag f → m.s.include_dir = some v) ∧
      (is_output_flag f ∨ is_include_flag f →
        create_calls m.log = positional_tokens pre ++ positional_tokens post ∧
        m.s.options.verbose =
          (s0.options.verbose || (tokens pre).any Tok.is_verbose ||
            (tokens post).any Tok.is_verbose)) := by
    intro prog pre f v post m hpre h
    obtain ⟨hval, first, rest, _, _, hdir, hout, _, hverb, _, _, _, _⟩ :=
      returned_spec env s0 _ m h
    have hcalls := returned_create_calls env s0 _ m h
    rw [List.tail_cons] at hval hdir hout hverb hcalls
    simp only [all_valid, Bool.and_eq_true, decide_eq_true_eq] at hval
    refine ⟨?_, ?_, ?_⟩
    · intro hf
      have htok := (part1 pre f v post hpre).1 hf
      have hmem : Tok.output f v ∈ tokens (pre ++ f :: v :: post) := by
        rw [htok]; simp
      have := eq_singleton_of_mem (mem_output_values hmem) hval.1.2
      rw [hout, this]
      simp
    · intro hf
      have htok := (part1 pre f v post hpre).2 hf
      have hmem : Tok.include_dir f v ∈ tokens (pre ++ f :: v :: post) := by
        rw [htok]; simp
      have := eq_singleton_of_mem (mem_include_values hmem) hval.2
      rw [hdir, this]
      simp
    · intro hf
      rcases hf with hf | hf
      · have htok := (part1 pre f v post hpre).1 hf
        rw [hcalls, hverb, positional_tokens, htok]
        simp [positional_tokens, Tok.positional?, Tok.is_verbose, Bool.or_assoc]
      · have htok := (part1 pre f v post hpre).2 hf
        rw [hcalls, hverb, positional_tokens, htok]
        simp [positional_tokens, Tok.positional?, Tok.is_verbose, Bool.or_assoc]
  have hpositional : ∀ (toks1 toks2 : List Tok) (t : Tok), t.positional? = none →
      (toks1 ++ t :: toks2).filterMap Tok.positional? =
        toks1.filterMap Tok.positional? ++ toks2.filterMap Tok.positional? := by
    intro toks1 toks2 t ht
    rw [List.filterMap_append, List.filterMap_cons, ht]
  refine ⟨part1, part2, ?_, ?_, scan_step_output env, scan_step_include env, ?_, ?_, ?_, ?_⟩
  · intro fa ha
    have hlen : (4 : Nat) = ["prog", "-o", "-v", "a.sc"].length := rfl
    have htok : tokens ["-o", "-v", "a.sc"] = [.output "-o" "-v", .positional "a.sc"] := by
      decide
    rw [hlen, create_from_args_eq, htok]
    simp [run_tokens, apply_tok, start_machine, after_scan, default_include_dir,
      resolve_output, create_files, ha, Machine.emit]
  · have hlen : (3 : Nat) = ["prog", "-o", "a.sc"].length := rfl
    have htok : tokens ["-o", "a.sc"] = [.output "-o" "a.sc"] := by decide
    rw [hlen, create_from_args_eq, htok]
    simp [run_tokens, apply_tok, start_machine, after_scan, default_include_dir, FailsWith,
      scu_perror, diagnostics]
  · intro prog pre f v post hpre hfirst hf
    have htok : tokens (prog :: (pre ++ f :: v :: post)).tail =
        tokens pre ++ Tok.include_dir f v :: tokens post := by
      rw [List.tail_cons]
      exact (part1 pre f v post (all_valid_no_dangling env _ hpre)).2 hf
    constructor
    · intro hst
      refine fails_after_valid env s0 _ (tokens pre) _ (tokens post) _ _ htok hpre ?_
      intro m1 _ hiv
      rw [hfirst] at hiv
      refine ⟨m1.emit (Event.stat v), ?_, ?_⟩
      · simp [apply_tok, hiv, hst]
      · simp [Machine.emit, diagnostics_append, diagnostics]
    · intro hst
      refine fails_after_valid env s0 _ (tokens pre) _ (tokens post) _ _ htok hpre ?_
      intro m1 _ hiv
      rw [hfirst] at hiv
      refine ⟨m1.emit (Event.stat v), ?_, ?_⟩
      · simp [apply_tok, hiv, hst]
      · simp [Machine.emit, diagnostics_append, diagnostics]
  · intro prog pre f v post first rest hpre hpost hpos hfac
    have hnd := all_valid_no_dangling env _ hpre
    constructor
    · intro hf hoa hob hinc
      have htok : tokens (prog :: (pre ++ f :: v :: post)).tail =
          tokens pre ++ Tok.output f v :: tokens post := by
        rw [List.tail_cons]
        exact (part1 pre f v post hnd).1 hf
      have hposeq : positional_tokens (prog :: (pre ++ f :: v :: post)).tail =
          positional_tokens pre ++ positional_tokens post := by
        rw [positional_tokens, htok]
        exact hpositional _ _ _ rfl
      obtain ⟨m, hm⟩ := returns_of_valid env s0 (prog :: (pre ++ f :: v :: post)) first rest
        (by rw [htok]; exact all_valid_around_output env _ _ f v hpre hpost hoa hob hinc)
        (by rw [hposeq, hpos])
        (by
          intro hnil
          rw [htok] at hnil
          simp [output_values, Tok.output?] at hnil)
        (by rw [hposeq]; exact hfac)
      obtain ⟨h1, _, h3⟩ := part2 prog pre f v post m hnd hm
      exact ⟨m, hm, h1 hf, (h3 (Or.inl hf)).1⟩
    · intro hf hia hib hout hst hname
      have htok : tokens (prog :: (pre ++ f :: v :: post)).tail =
          tokens pre ++ Tok.include_dir f v :: tokens post := by
        rw [List.tail_cons]
        exact (part1 pre f v post hnd).2 hf
      have hposeq : positional_tokens (prog :: (pre ++ f :: v :: post)).tail =
          positional_tokens pre ++ positional_tokens post := by
        rw [positional_tokens, htok]
        exact hpositional _ _ _ rfl
      obtain ⟨m, hm⟩ := returns_of_valid env s0 (prog :: (pre ++ f :: v :: post)) first rest
        (by rw [htok]; exact all_valid_around_include env _ _ f v hpre hpost hia hib hout hst)
        (by rw [hposeq, hpos])
        (by
          intro hnil
          apply hname
          rw [htok] at hnil
          simpa [output_values, Tok.output?] using hnil)
        (by rw [hposeq]; exact hfac)
      obtain ⟨_, h2, h3⟩ := part2 prog pre f v post m hnd hm
      exact ⟨m, hm, h2 hf, (h3 (Or.inr hf)).1⟩
  · intro fa name hst hex ha
    have hlen : (4 : Nat) = ["prog", "-i", "-v", "a.sc"].length := rfl
    have htok : tokens ["-i", "-v", "a.sc"] = [.include_dir "-i" "-v", .positional "a.sc"] := by
      decide
    rw [hlen, create_from_args_eq, htok]
    simp [run_tokens, apply_tok, start_machine, after_scan, default_include_dir,
      resolve_output, create_files, ha, hst, hex, Machine.emit]
  · intro hst
    have hlen : (3 : Nat) = ["prog", "-i", "a.sc"].length := rfl
    have htok : tokens ["-i", "a.sc"] = [.include_dir "-i" "a.sc"] := by decide
    rw [hlen, create_from_args_eq, htok]
    simp [run_tokens, apply_tok, start_machine, after_scan, default_include_dir, FailsWith,
      scu_perror, diagnostics, hst]

theorem flag_value_consumed_verbatim_witness :
    tokens (["a.sc"] ++ "--include_dir" :: "-o" :: ["b.sc"]) =
      tokens ["a.sc"] ++ Tok.include_dir "--include_dir" "-o" :: tokens ["b.sc"] ∧
    (∃ m, cstate_create_from_args sampleEnv dirtyState 4 ["prog", "-o", "-v", "a.sc"] =
        .returned m ∧
      m.s.output_filepath = some "-v" ∧ m.s.options.verbose = dirtyState.options.verbose ∧
      m.s.files = ["a.sc"]) ∧
    cstate_create_from_args sampleEnv zeroState 4 ["prog", "-o", "-i", "a.sc"] =
      .returned
        { s := { options := { verbose := false, output := true, include_dir_specified := false }
                 output_filepath := some "-i", include_dir := some ".", error_count := 0
                 files := ["a.sc"] }
          filenames := []
          log := [.create_fstate "a.sc"] } ∧
    some "-i" = some "-i" ∧
    scan_step dashEnv 4 ["prog", "-i", "-v", "a.sc"] 1 (start_machine zeroState) =
      .next 3
        { s := { zeroState with
                  options := { zeroState.options with include_dir_specified := true }
                  include_dir := some "-v" }
          filenames := []
          log := [.stat "-v"] } ∧
    FailsWith (cstate_create_from_args sampleEnv zeroState 5
        ["prog", "a.sc", "-i", "--output", "b.sc"])
      "Include directory does not exist: %s\n" ["--output"] ∧
    (∃ m, cstate_create_from_args dashEnv zeroState 7
          ["prog", "a.sc", "-i", "-v", "-o", "x", "b.sc"] = .returned m ∧
        m.s.include_dir = some "-v" ∧
        create_calls m.log = positional_tokens ["a.sc"] ++ positional_tokens ["-o", "x", "b.sc"]) ∧
    (∃ m, cstate_create_from_args dashEnv dirtyState 4 ["prog", "-i", "-v", "a.sc"] =
        .returned m ∧
      m.s.include_dir = some "-v" ∧ m.s.options.verbose = dirtyState.options.verbose ∧
      m.s.output_filepath = some "a" ∧ m.s.files = ["a.sc"]) :=
  ⟨((flag_value_consumed_verbatim sampleEnv zeroState).1 ["a.sc"] "--include_dir" "-o"
      ["b.sc"] (all_valid_no_dangling sampleEnv (tokens ["a.sc"]) (by decide))).2 (by decide),
    (flag_value_consumed_verbatim sampleEnv dirtyState).2.2.1 "a.sc" (by decide),
    by decide,
    ((flag_value_consumed_verbatim sampleEnv zeroState).2.1 "prog" [] "-o" "-i" ["a.sc"]
      { s := { options := { verbose := false, output := true, include_dir_specified := false }
               output_filepath := some "-i", include_dir := some ".", error_count := 0
               files := ["a.sc"] }
        filenames := []
        log := [.create_fstate "a.sc"] }
      (all_valid_no_dangling sampleEnv (tokens []) (by decide)) (by decide)).1 (by decide),
    ((flag_value_consumed_verbatim dashEnv zeroState).2.2.2.2.2.1
      ["prog", "-i", "-v", "a.sc"] 1 (start_machine zeroState) "-i" "-v"
      (by decide) (by decide) (by decide)).trans (by decide),
    ((flag_value_consumed_verbatim sampleEnv zeroState).2.2.2.2.2.2.1 "prog" ["a.sc"] "-i"
      "--output" ["b.sc"] (by decide) (by decide) (by decide)).1 (by decide),
    ((flag_value_consumed_verbatim dashEnv zeroState).2.2.2.2.2.2.2.1 "prog" ["a.sc"] "-i" "-v"
      ["-o", "x", "b.sc"] "a.sc" ["b.sc"] (by decide) (by decide) (by decide)
      (by decide)).2 (by decide) (by decide) (by decide) (by decide) (by decide)
      (fun h => absurd h (by decide)),
    (flag_value_consumed_verbatim dashEnv dirtyState).2.2.2.2.2.2.2.2.1 "a.sc" "a"
      (by decide) (by decide) (by decide)⟩

/-- C18: when the arguments before it are all valid, an output flag (an
include-directory flag) that is the last token makes resolution fail with the
diagnostic of the missing value, naming the flag as it was spelled, whether or
not an output (an include directory) was given before; and an
include-directory flag with a value, read after valid tokens one of which is
an include-directory flag, makes resolution fail with the diagnostic of the
repeated include directory, `stat` having been called on the earlier value
only. -/
theorem checks_in_fixed_order {F : Type} (env : Env F) (s0 : cstate F) :
    (∀ (prog : String) (pre : List String) (f : String),
      all_valid env (tokens pre) = true →
      (is_output_flag f →
        FailsWith (cstate_create_from_args env s0 (prog :: (pre ++ [f])).length
          (prog :: (pre ++ [f]))) "Missing filename after %s\n" [f]) ∧
      (is_include_flag f →
        FailsWith (cstate_create_from_args env s0 (prog :: (pre ++ [f])).length
          (prog :: (pre ++ [f]))) "Missing directory path after %s\n" [f])) ∧
    (∀ (argv : List String) (pre : List Tok) (f v : String) (post : List Tok),
      tokens argv.tail = pre ++ Tok.include_dir f v :: post → all_valid env pre = true →
      include_values pre ≠ [] →
      FailsWith (cstate_create_from_args env s0 argv.length argv)
        "Include directory specified more than once: %s\n" [v] ∧
      ∃ m d, (cstate_create_from_args env s0 argv.length argv).machine? = some m ∧
        include_values pre = [d] ∧ stat_calls m.log = [d]) := by
  constructor
  · intro prog pre f hpre
    have hd := all_valid_no_dangling env _ hpre
    constructor
    · intro hf
      have htok : tokens (prog :: (pre ++ [f])).tail = tokens pre ++ Tok.dangling f :: [] := by
        rw [List.tail_cons, tokens_append _ _ hd, tokens_dangling f (Or.inl hf)]
      refine fails_after_valid env s0 _ (tokens pre) _ [] _ _ htok hpre ?_
      intro m1 _ _
      exact ⟨m1, by simp only [apply_tok, if_pos hf], rfl⟩
    · intro hf
      have htok : tokens (prog :: (pre ++ [f])).tail = tokens pre ++ Tok.dangling f :: [] := by
        rw [List.tail_cons, tokens_append _ _ hd, tokens_dangling f (Or.inr hf)]
      refine fails_after_valid env s0 _ (tokens pre) _ [] _ _ htok hpre ?_
      intro m1 _ _
      exact ⟨m1, by simp only [apply_tok, if_neg (include_flag_not_output f hf)], rfl⟩
  · intro argv pre f v post htok hpre hdup
    obtain ⟨m1, hrun, _, hiv, _, _, hlog⟩ := all_valid_run env s0 pre hpre
    have hlen : (include_values pre).length ≤ 1 := by
      simp only [all_valid, Bool.and_eq_true, decide_eq_true_eq] at hpre
      exact hpre.2
    obtain ⟨d, hd⟩ : ∃ d, include_values pre = [d] := by
      match hv : include_values pre, hlen with
      | [], _ => exact absurd hv hdup
      | [d], _ => exact ⟨d, rfl⟩
      | _ :: _ :: _, hl => simp at hl
    have hne : m1.s.include_dir ≠ none := by rw [hiv, hd]; simp
    have hap : apply_tok env m1 (Tok.include_dir f v) =
        .inr (.exited 1
          (scu_perror m1 "Include directory specified more than once: %s\n" [v])) := by
      simp only [apply_tok, if_pos hne]
    rw [create_from_args_stops env s0 argv pre _ post m1 _ htok hrun hap]
    refine ⟨?_, _, d, rfl, hd, ?_⟩
    · simp [FailsWith, scu_perror, diagnostics_append, hlog, (calls_map_stat _).1, diagnostics]
    · simp [scu_perror, stat_calls_append, hlog, hd, stat_calls]

theorem checks_in_fixed_order_witness :
    FailsWith (cstate_create_from_args sampleEnv zeroState 5 ["prog", "-o", "x", "a.sc", "-o"])
      "Missing filename after %s\n" ["-o"] ∧
    FailsWith (cstate_create_from_args sampleEnv zeroState 4
        ["prog", "-i", "inc", "--include_dir"]) "Missing directory path after %s\n"
      ["--include_dir"] ∧
    (FailsWith (cstate_create_from_args sampleEnv zeroState 6
          ["prog", "-i", "inc", "a.sc", "-i", "nowhere"])
        "Include directory specified more than once: %s\n" ["nowhere"] ∧
      ∃ m d, (cstate_create_from_args sampleEnv zeroState 6
            ["prog", "-i", "inc", "a.sc", "-i", "nowhere"]).machine? = some m ∧
        include_values [Tok.include_dir "-i" "inc", Tok.positional "a.sc"] = [d] ∧
        stat_calls m.log = [d]) :=
  ⟨((checks_in_fixed_order sampleEnv zeroState).1 "prog" ["-o", "x", "a.sc"] "-o"
      (by decide)).1 (by decide),
    ((checks_in_fixed_order sampleEnv zeroState).1 "prog" ["-i", "inc"] "--include_dir"
      (by decide)).2 (by decide),
    (checks_in_fixed_order sampleEnv zeroState).2 ["prog", "-i", "inc", "a.sc", "-i", "nowhere"]
      [Tok.include_dir "-i" "inc", Tok.positional "a.sc"] "-i" "nowhere" []
      (by decide) (by decide) (by decide)⟩

/-- C15, as it stands, fails: for an assembly path of 600 characters the
command given to `system` is not the whole text: it has at most 511 bytes. -/
theorem fasm_command_counterexample :
    (fasm_assemble (fun _ => 0) "out" (String.mk (List.replicate 600 'a'))).command ≠
      c_bytes ("fasm " ++ String.mk (List.replicate 600 'a') ++ " " ++ "out" ++
        ".o > /dev/null") := by
  intro h
  have hlen := congrArg List.length h
  rw [fasm_assemble_command] at hlen
  have hle : (snprintf_bytes 512 (c_bytes (fasm_format (String.mk (List.replicate 600 'a'))
      "out"))).length ≤ 511 := by
    unfold snprintf_bytes
    rw [List.length_take]
    omega
  have hge := c_bytes_length_ge ("fasm " ++ String.mk (List.replicate 600 'a') ++ " " ++
    "out" ++ ".o > /dev/null")
  simp only [String.data_append, List.length_append, List.length_replicate] at hge
  omega

/-- C15, amended: for every output base name `O` and assembly source path `A`
for which the text `fasm A O.o > /dev/null` has at most 511 bytes,
`fasm_assemble` gives exactly that text to `system`. -/
theorem fasm_command_exact (system : List UInt8 → Int) (O A : String)
    (h : (c_bytes ("fasm " ++ A ++ " " ++ O ++ ".o > /dev/null")).length ≤ 511) :
    (fasm_assemble system O A).command =
      c_bytes ("fasm " ++ A ++ " " ++ O ++ ".o > /dev/null") := by
  rw [fasm_assemble_command]
  unfold snprintf_bytes fasm_format
  exact List.take_of_length_le h

theorem fasm_command_exact_witness :
    (fasm_assemble (fun _ => 0) "out" "out.s").command =
      c_bytes ("fasm " ++ "out.s" ++ " " ++ "out" ++ ".o > /dev/null") :=
  fasm_command_exact (fun _ => 0) "out" "out.s" (by decide)

end SimpleCompiler
